import Mathlib

/-!
# Verification of the binary-version-analyzer scanning/extraction core

This file is a shallow embedding, in Lean 4, of the core of the
`binary-version-analyzer` Go repository:

* the pattern registry (`patterns/version_patterns.go`): the 15 version
  patterns with their metadata, the priority sort `GetPatternsByPriority`,
  and the self-test routines `ValidatePattern` / `ValidateAllPatterns`;
* the scanning engine (`internal/analyzer.go`): the custom split function
  of `ScanBinary`, the per-line filtering (`isPrintable`, length cap,
  blank-line skip), the candidate extraction loop with deduplication and
  the 20-candidate / 50000-line caps, the validity check `isValidVersion`,
  and the byte-wise fallback `scanBinaryChunked`;
* the provider guard of `AnalyzeVersions` (OpenAI and Groq).

Go strings are modelled as lists of byte values (`List Nat`, each < 256);
a "character" is a byte, which coincides with Go's rune iteration on the
ASCII inputs the scanner targets.  Go's `regexp` (RE2 leftmost-first
semantics, i.e. the match a Perl-style backtracking search finds first) is
modelled by a small backtracking engine over a first-order regex AST; each
of the 15 source pattern strings is transcribed into that AST.  Fallible
Go functions returning `(T, error)` are modelled with a `GoResult` type.
-/

/-- Byte-list view of an ASCII string literal, for writing concrete inputs. -/
def bstr (s : String) : List Nat := s.data.map (fun c => c.toNat)

/-! ## Character classes and regex AST

Go's `regexp` patterns used in `version_patterns.go` only ever apply
quantifiers (`*`, `+`, `*?`, `{n}`) to single character classes, so the
AST restricts `star` to a class; `+` and `{n}` are desugared below.
All 15 patterns carry the `(?i)` flag, so literal characters are matched
case-insensitively (`CCls.ci`). -/

/-- First-order character classes (Go RE2, ASCII semantics: `\d`, `\w`,
`\s = [\t\n\f\r ]`, `.` = any byte except newline, case-insensitive
literal, explicit byte set, byte range). -/
inductive CCls where
  | digit : CCls
  | word : CCls
  | space : CCls
  | anyNoNL : CCls
  | ci : Nat → CCls
  | oneOf : List Nat → CCls
  | rng : Nat → Nat → CCls
  | or2 : CCls → CCls → CCls
deriving DecidableEq, Repr

/-- Lower-case an ASCII byte (`A`-`Z` ↦ `a`-`z`), as Go's `(?i)` folding
does on the ASCII characters occurring in the registry's patterns. -/
def lowerByte (c : Nat) : Nat := if 65 ≤ c ∧ c ≤ 90 then c + 32 else c

def CCls.test : CCls → Nat → Bool
  | .digit, c => 48 ≤ c && c ≤ 57
  | .word, c => (48 ≤ c && c ≤ 57) || (65 ≤ c && c ≤ 90) || (97 ≤ c && c ≤ 122) || c == 95
  | .space, c => c == 9 || c == 10 || c == 12 || c == 13 || c == 32
  | .anyNoNL, c => c != 10
  | .ci a, c => lowerByte c == lowerByte a
  | .oneOf cs, c => cs.contains c
  | .rng lo hi, c => lo ≤ c && c ≤ hi
  | .or2 a b, c => a.test c || b.test c

/-- Regex AST: empty string, single class, concatenation, alternation,
quantified class (`greedy = true` for `*`, `false` for `*?`), optional
subexpression (greedy `?`), the single capturing group, and the word
boundary `\b`. -/
inductive RE where
  | eps : RE
  | cls : CCls → RE
  | seq : RE → RE → RE
  | alt : RE → RE → RE
  | star : CCls → Bool → RE
  | opt : RE → RE
  | group : RE → RE
  | wordB : RE
deriving DecidableEq, Repr

/-- `c+` desugars to `c c*` (greedy), as in RE2. -/
def RE.plus (c : CCls) : RE := .seq (.cls c) (.star c true)

/-- `c{n}` desugars to an `n`-fold concatenation. -/
def RE.rep (c : CCls) : Nat → RE
  | 0 => .eps
  | n + 1 => .seq (.cls c) (RE.rep c n)

/-- Case-insensitive literal for an ASCII string (the `(?i)` flag is set
on every registry pattern). -/
def RE.lit (s : String) : RE :=
  (s.data.map (fun c => RE.cls (.ci c.toNat))).foldr RE.seq .eps

/-! ## Backtracking matcher (RE2 leftmost-first semantics)

Go's non-POSIX `regexp` returns, at the leftmost matching position, the
match that a backtracking search would find first: greedy quantifiers
prefer longer, lazy prefer shorter, alternation prefers the left branch,
`?` prefers presence.  The engine below implements exactly that
preference order, threading a position and the (single) capture span. -/

/-- Matcher state: current position in the subject and the recorded span
of the capturing group, if already closed. -/
structure MState where
  pos : Nat
  cap : Option (Nat × Nat)
deriving DecidableEq, Repr

/-- Is the byte at index `i` of `s` a word byte (out of range counts as
non-word, as at the ends of a Go string)? -/
def isWordAt (s : List Nat) (i : Nat) : Bool :=
  match s.get? i with
  | some c => CCls.word.test c
  | none => false

/-- `\b`: word-ness differs between the previous byte and the current one. -/
def wordBoundary (s : List Nat) (pos : Nat) : Bool :=
  (if pos = 0 then false else isWordAt s (pos - 1)) != isWordAt s pos

/-- Length of the maximal run of bytes satisfying `p` starting at `pos`. -/
def runLen (p : CCls) (s : List Nat) (pos : Nat) : Nat :=
  ((s.drop pos).takeWhile p.test).length

/-- Greedy enumeration for `c*`: try consuming `n` bytes first, then
`n - 1`, …, down to `0`. -/
def tryDown (st : MState) (k : MState → Option MState) : Nat → Option MState
  | 0 => k st
  | n + 1 =>
    match k { st with pos := st.pos + (n + 1) } with
    | some r => some r
    | none => tryDown st k n

/-- Lazy enumeration for `c*?`: try consuming `0` bytes first, then `1`,
…, up to the run length. -/
def tryUp (st : MState) (k : MState → Option MState) : Nat → Option MState
  | 0 => k st
  | n + 1 =>
    match k st with
    | some r => some r
    | none => tryUp { st with pos := st.pos + 1 } k n

/-- Continuation-passing backtracking matcher.  `run re s st k` tries to
match `re` at `st.pos` in `s`, calling `k` on each candidate ending state
in backtracking preference order and returning the first success. -/
def runRE (re : RE) (s : List Nat) (st : MState) (k : MState → Option MState) :
    Option MState :=
  match re with
  | .eps => k st
  | .cls p =>
    match s.get? st.pos with
    | some c => if p.test c then k { st with pos := st.pos + 1 } else none
    | none => none
  | .seq a b => runRE a s st (fun st1 => runRE b s st1 k)
  | .alt a b =>
    match runRE a s st k with
    | some r => some r
    | none => runRE b s st k
  | .star p greedy =>
    let n := runLen p s st.pos
    if greedy then tryDown st k n else tryUp st k n
  | .opt a =>
    match runRE a s st k with
    | some r => some r
    | none => k st
  | .group a =>
    runRE a s st (fun st1 => k { st1 with cap := some (st.pos, st1.pos) })
  | .wordB => if wordBoundary s st.pos then k st else none

/-- Try to match `re` (unanchored body, anchored start) at position `pos`. -/
def tryMatchAt (re : RE) (s : List Nat) (pos : Nat) : Option MState :=
  runRE re s { pos := pos, cap := none } some

/-- The byte-span `[a, b)` of `s`. -/
def sliceBytes (s : List Nat) (a b : Nat) : List Nat :=
  (s.drop a).take (b - a)

/-- Leftmost match at or after `pos`: the first start position (scanning
left to right) where the pattern matches, together with the match's end
state.  `cnt` counts the candidate start positions left to try. -/
def findFromAux (re : RE) (s : List Nat) (pos : Nat) : Nat → Option (Nat × MState)
  | 0 => none
  | cnt + 1 =>
    match tryMatchAt re s pos with
    | some st => some (pos, st)
    | none => findFromAux re s (pos + 1) cnt

/-- Leftmost-first match of `re` in `s` starting the search at `pos`. -/
def findFrom (re : RE) (s : List Nat) (pos : Nat) : Option (Nat × MState) :=
  findFromAux re s pos (s.length + 1 - pos)

/-- Group-1 text of a match, as Go's `FindStringSubmatch`'s entry 1
(empty if the group did not participate; every registry pattern's group
always participates). -/
def capText (s : List Nat) (start : Nat) (st : MState) : List Nat :=
  match st.cap with
  | some (a, b) => sliceBytes s a b
  | none => sliceBytes s start start

/-- Model of Go `regexp.FindStringSubmatch`: the group-1 text of the
leftmost-first match, or `none` when the pattern does not match. -/
def findStringSubmatch1 (re : RE) (s : List Nat) : Option (List Nat) :=
  match findFrom re s 0 with
  | some (q, st) => some (capText s q st)
  | none => none

/-- Successive non-overlapping leftmost-first matches from `pos`
(group-1 texts), as Go's `FindAllStringSubmatch(s, -1)`; after a match
the search resumes at its end (one past its start for an empty match). -/
def findAllAux (re : RE) (s : List Nat) (pos : Nat) : Nat → List (List Nat)
  | 0 => []
  | cnt + 1 =>
    match findFrom re s pos with
    | some (q, st) =>
      capText s q st ::
        findAllAux re s (if st.pos ≤ q then q + 1 else st.pos) cnt
    | none => []

/-- Model of Go `regexp.FindAllStringSubmatch(s, -1)`, restricted to the
group-1 text of each match. -/
def findAllSubmatch1 (re : RE) (s : List Nat) : List (List Nat) :=
  findAllAux re s 0 (s.length + 1)

/-! ## The pattern registry (`patterns/version_patterns.go`)

`VersionPattern` keeps the behaviour-relevant fields of the Go struct
(`Name`, compiled `Pattern`, self-test `Examples`/`Expected`,
`Priority`); the print-only documentation strings (`Description`,
`Purpose`) are inert metadata and are not modelled. -/

structure VersionPattern where
  Name : String
  Pattern : RE
  Examples : List String
  Expected : List String
  Priority : Nat
deriving DecidableEq, Repr

/-- Concatenation of a list of regexes, for transcribing pattern strings. -/
def RE.seqs (l : List RE) : RE := l.foldr .seq .eps

/-- `[\d.]` -/
def digitDot : CCls := .or2 .digit (.oneOf [46])

/-- `[\w.]` -/
def wordDot : CCls := .or2 .word (.oneOf [46])

/-- `([\d.]+(?:-[\w.]+)?)` — the capture shared by several patterns. -/
def verGroup : RE :=
  .group (.seq (RE.plus digitDot) (.opt (.seq (.cls (.ci 45)) (RE.plus wordDot))))

/-- `[-_\s]` -/
def sepCls : CCls := .or2 (.oneOf [45, 95]) .space

/-- `(?:0[1-9]|1[0-2])` — the month part of the date pattern. -/
def monthRE : RE :=
  .alt (.seq (.cls (.ci 48)) (.cls (.rng 49 57)))
    (.seq (.cls (.ci 49)) (.cls (.rng 48 50)))

/-- `(?:0[1-9]|[12]\d|3[01])` — the day part of the date pattern. -/
def dayRE : RE :=
  .alt (.seq (.cls (.ci 48)) (.cls (.rng 49 57)))
    (.alt (.seq (.cls (.oneOf [49, 50])) (.cls .digit))
      (.seq (.cls (.ci 51)) (.cls (.oneOf [48, 49]))))

/-- The 15-entry registry `VersionPatterns`, in declaration order, with
each Go pattern string transcribed to the regex AST:

1.  `(?i)version\s*[=:]?\s*([\d.]+(?:-[\w.]+)?)`
2.  `(?i)\bv\s*([\d.]+(?:-[\w.]+)?)\b`
3.  `(?i)([\d.]+(?:-[\w.]+)?)\s*\(stable\)`
4.  `(?i)([\d.]+(?:-[\w.]+)?)\s*release`
5.  `(?i)glibc[-_]?([\d.]+)`
6.  `(?i)([\d.]+)\s*\(glibc`
7.  `(?i)lib\w*[-_]([\d.]+(?:-[\w.]+)?)`
8.  `(?i)([\d.]+(?:-[\w.]+)?)\s*stable`
9.  `(?i)build\s*[#:]?\s*([\d.]+(?:-[\w.]+)?)`
10. `(?i)\b([\d]+\.[\d]+\.[\d]+(?:-[\w.]+)?(?:\+[\w.]+)?)\b`
11. `(?i)(?:gcc|clang|msvc)(?:[-_\s]+version\s+|[-_\s]*)([\d.]+)`
12. `(?i)(?:pkg|package)[-_\s]*([\d.]+(?:-[\w.]+)?)`
13. `(?i)copyright.*?(\d{4})`
14. `(?i)\b(20\d{2}[.\-_]?(?:0[1-9]|1[0-2])[.\-_]?(?:0[1-9]|[12]\d|3[01]))\b`
15. `(?i)api.*?([\d.]+)` -/
def VersionPatterns : List VersionPattern := [
  { Name := "Standard Version Declaration",
    Pattern := RE.seqs [RE.lit "version", .star .space true,
      .opt (.cls (.oneOf [61, 58])), .star .space true, verGroup],
    Examples := ["version 1.2.3", "Version: 2.4.1", "version=3.1.0-beta",
      "VERSION 1.0.0"],
    Expected := ["1.2.3", "2.4.1", "3.1.0-beta", "1.0.0"],
    Priority := 1 },
  { Name := "V-Prefixed Version",
    Pattern := RE.seqs [.wordB, .cls (.ci 118), .star .space true, verGroup,
      .wordB],
    Examples := ["v1.2.3", "V2.0.1", "v3.1.0-alpha", "built with v1.18.5"],
    Expected := ["1.2.3", "2.0.1", "3.1.0-alpha", "1.18.5"],
    Priority := 2 },
  { Name := "Stable Release Version",
    Pattern := RE.seqs [verGroup, .star .space true, RE.lit "(stable)"],
    Examples := ["2.1.3 (stable)", "1.0.0-rc1 (stable)", "3.2.1(stable)"],
    Expected := ["2.1.3", "1.0.0-rc1", "3.2.1"],
    Priority := 1 },
  { Name := "Release Keyword Version",
    Pattern := RE.seqs [verGroup, .star .space true, RE.lit "release"],
    Examples := ["1.4.2 release", "2.0.0-beta release", "3.1.1release"],
    Expected := ["1.4.2", "2.0.0-beta", "3.1.1"],
    Priority := 2 },
  { Name := "GLIBC Version",
    Pattern := RE.seqs [RE.lit "glibc", .opt (.cls (.oneOf [45, 95])),
      .group (RE.plus digitDot)],
    Examples := ["glibc-2.31", "GLIBC_2.27", "glibc2.35", "glibc_2.28"],
    Expected := ["2.31", "2.27", "2.35", "2.28"],
    Priority := 3 },
  { Name := "GLIBC Context Version",
    Pattern := RE.seqs [.group (RE.plus digitDot), .star .space true,
      RE.lit "(glibc"],
    Examples := ["2.31 (glibc)", "2.27 (GLIBC compatible)", "2.35(glibc"],
    Expected := ["2.31", "2.27", "2.35"],
    Priority := 4 },
  { Name := "Library Version",
    Pattern := RE.seqs [RE.lit "lib", .star .word true,
      .cls (.oneOf [45, 95]), verGroup],
    Examples := ["libssl-1.1.1", "libcrypto_3.0.2", "libz-1.2.11",
      "libpthread-2.31"],
    Expected := ["1.1.1", "3.0.2", "1.2.11", "2.31"],
    Priority := 3 },
  { Name := "Stable Keyword Version",
    Pattern := RE.seqs [verGroup, .star .space true, RE.lit "stable"],
    Examples := ["1.8.0 stable", "2.1.3-rc1 stable", "3.0.0stable"],
    Expected := ["1.8.0", "2.1.3-rc1", "3.0.0"],
    Priority := 2 },
  { Name := "Build Version",
    Pattern := RE.seqs [RE.lit "build", .star .space true,
      .opt (.cls (.oneOf [35, 58])), .star .space true, verGroup],
    Examples := ["build 1.2.3", "Build: 2.0.1", "build#1.5.0-beta",
      "BUILD 3.1.0"],
    Expected := ["1.2.3", "2.0.1", "1.5.0-beta", "3.1.0"],
    Priority := 4 },
  { Name := "Semantic Version",
    Pattern := RE.seqs [.wordB,
      .group (RE.seqs [RE.plus .digit, .cls (.ci 46), RE.plus .digit,
        .cls (.ci 46), RE.plus .digit,
        .opt (.seq (.cls (.ci 45)) (RE.plus wordDot)),
        .opt (.seq (.cls (.ci 43)) (RE.plus wordDot))]),
      .wordB],
    Examples := ["1.2.3", "10.15.7", "2.1.0-alpha.1", "1.0.0+20220101",
      "3.2.1-beta.2+build.123"],
    Expected := ["1.2.3", "10.15.7", "2.1.0-alpha.1", "1.0.0+20220101",
      "3.2.1-beta.2+build.123"],
    Priority := 2 },
  { Name := "Compiler Version",
    Pattern := RE.seqs [.alt (RE.lit "gcc") (.alt (RE.lit "clang") (RE.lit "msvc")),
      .alt (RE.seqs [RE.plus sepCls, RE.lit "version", RE.plus .space])
        (.star sepCls true),
      .group (RE.plus digitDot)],
    Examples := ["gcc-9.4.0", "clang 13.0.1", "MSVC_19.29",
      "gcc version 11.2.0"],
    Expected := ["9.4.0", "13.0.1", "19.29", "11.2.0"],
    Priority := 5 },
  { Name := "Package Version",
    Pattern := RE.seqs [.alt (RE.lit "pkg") (RE.lit "package"),
      .star sepCls true, verGroup],
    Examples := ["pkg-1.2.3", "package 2.0.1", "PKG_3.1.0-beta"],
    Expected := ["1.2.3", "2.0.1", "3.1.0-beta"],
    Priority := 4 },
  { Name := "Copyright Year Version",
    Pattern := RE.seqs [RE.lit "copyright", .star .anyNoNL false,
      .group (RE.rep .digit 4)],
    Examples := ["Copyright (c) 2023", "Copyright 2022 Company",
      "(C) Copyright 2021"],
    Expected := ["2023", "2022", "2021"],
    Priority := 8 },
  { Name := "Date-based Version",
    Pattern := RE.seqs [.wordB,
      .group (RE.seqs [RE.lit "20", RE.rep .digit 2,
        .opt (.cls (.oneOf [46, 45, 95])), monthRE,
        .opt (.cls (.oneOf [46, 45, 95])), dayRE]),
      .wordB],
    Examples := ["2023.12.15", "2022-03-21", "20231201", "2023_11_30"],
    Expected := ["2023.12.15", "2022-03-21", "20231201", "2023_11_30"],
    Priority := 6 },
  { Name := "API Version",
    Pattern := RE.seqs [RE.lit "api", .star .anyNoNL false,
      .group (RE.plus digitDot)],
    Examples := ["API v1.2", "api_version_2.1", "API-3.0"],
    Expected := ["1.2", "2.1", "3.0"],
    Priority := 5 }]

/-- Placeholder pattern for out-of-range array reads (never reached: all
indices used by the sort are in bounds). -/
def dummyPattern : VersionPattern :=
  { Name := "", Pattern := .eps, Examples := [], Expected := [], Priority := 0 }

/-- One comparison/swap of the `GetPatternsByPriority` inner loop body:
`if patterns[i].Priority > patterns[j].Priority { swap }`. -/
def exchStep (arr : Array VersionPattern) (i j : Nat) : Array VersionPattern :=
  if (arr.getD i dummyPattern).Priority > (arr.getD j dummyPattern).Priority then
    (arr.setD i (arr.getD j dummyPattern)).setD j (arr.getD i dummyPattern)
  else arr

/-- Inner loop `for j := i + 1; j < len(patterns); j++`, with `cnt`
remaining iterations. -/
def innerJ (i : Nat) (arr : Array VersionPattern) (j : Nat) :
    Nat → Array VersionPattern
  | 0 => arr
  | c + 1 => innerJ i (exchStep arr i j) (j + 1) c

/-- Outer loop `for i := 0; i < len(patterns)-1; i++`, with `cnt`
remaining iterations. -/
def outerI (arr : Array VersionPattern) (i : Nat) : Nat → Array VersionPattern
  | 0 => arr
  | c + 1 => outerI (innerJ i arr (i + 1) (arr.size - (i + 1))) (i + 1) c

/-- `GetPatternsByPriority`: copies the registry and sorts it with the
nested compare-and-swap loops of the source (an exchange sort). -/
def GetPatternsByPriority : List VersionPattern :=
  (outerI VersionPatterns.toArray 0 (VersionPatterns.length - 1)).toList

/-- `GetCompiledPatterns`: the compiled regexes in declaration order. -/
def GetCompiledPatterns : List RE := VersionPatterns.map (·.Pattern)

/-- The example loop of `ValidatePattern`: at index `i`, a missing match
fails; an extracted group different from `Expected[i]` (when `i` is in
range of `Expected`) fails; otherwise continue. -/
def validateExamples (re : RE) (examples expected : List String) :
    Nat → Bool
  | i =>
    match examples with
    | [] => true
    | e :: rest =>
      match findStringSubmatch1 re (bstr e) with
      | none => false
      | some extracted =>
        if i < expected.length ∧ extracted ≠ (expected.getD i "").data.map (fun c => c.toNat)
        then false
        else validateExamples re rest expected (i + 1)

/-- `ValidatePattern`: tests a pattern against its examples. -/
def ValidatePattern (p : VersionPattern) : Bool :=
  validateExamples p.Pattern p.Examples p.Expected 0

/-- `ValidateAllPatterns`: folds `ValidatePattern` over the registry,
clearing the flag on any failure (the source's `allValid` loop). -/
def ValidateAllPatterns : Bool :=
  VersionPatterns.foldl (fun allValid p => if !ValidatePattern p then false else allValid) true

/-! ## Line filters and candidate validity (`internal` helpers) -/

/-- Counting loop of `isPrintable`: walk the sampled bytes, skipping
tab/newline/carriage-return, counting bytes outside `[32, 126]`, and
fail as soon as the count exceeds `checkLen / 10`. -/
def isPrintableLoop (checkLen : Nat) (cnt : Nat) : List Nat → Bool
  | [] => true
  | c :: rest =>
    if c = 9 ∨ c = 10 ∨ c = 13 then isPrintableLoop checkLen cnt rest
    else if c < 32 ∨ c > 126 then
      if cnt + 1 > checkLen / 10 then false
      else isPrintableLoop checkLen (cnt + 1) rest
    else isPrintableLoop checkLen cnt rest

/-- `isPrintable`: empty strings are not printable; otherwise sample the
first `min (length, 200)` bytes and require at most `checkLen / 10`
non-printable bytes among them. -/
def isPrintable (s : List Nat) : Bool :=
  if s.length = 0 then false
  else
    let checkLen := if s.length > 200 then 200 else s.length
    isPrintableLoop checkLen 0 (s.take checkLen)

/-- ASCII whitespace, as `strings.TrimSpace` strips on ASCII bytes
(space, `\t`, `\n`, `\v`, `\f`, `\r`). -/
def isSpaceByte (b : Nat) : Bool := b == 32 || (9 ≤ b && b ≤ 13)

/-- Model of `strings.TrimSpace` on byte strings. -/
def trimSpace (s : List Nat) : List Nat :=
  ((s.dropWhile isSpaceByte).reverse.dropWhile isSpaceByte).reverse

/-- Character loop of `isValidVersion`: track `hasDigit`/`hasDot`, and
reject outright on any byte other than digits, `.`, `-`, `_`. -/
def isValidVersionLoop (hasDigit hasDot : Bool) : List Nat → Bool
  | [] => hasDigit && hasDot
  | c :: rest =>
    if 48 ≤ c ∧ c ≤ 57 then isValidVersionLoop true hasDot rest
    else if c = 46 then isValidVersionLoop hasDigit true rest
    else if c ≠ 45 ∧ c ≠ 95 then false
    else isValidVersionLoop hasDigit hasDot rest

/-- `isValidVersion`: non-empty, at most 20 bytes, only
digits/`.`/`-`/`_`, with at least one digit and at least one dot. -/
def isValidVersion (version : List Nat) : Bool :=
  if version.length = 0 ∨ version.length > 20 then false
  else isValidVersionLoop false false version

/-! ## Candidate extraction (shared by both scan strategies) -/

/-- The deduplication state of a scan: the ordered `candidates` list and
the `candidateSet` membership structure (a Go `map[string]bool`,
modelled as a list queried by membership). -/
structure ScanState where
  candidates : List (List Nat)
  candidateSet : List (List Nat)
deriving DecidableEq, Repr

def initScanState : ScanState := { candidates := [], candidateSet := [] }

/-- The per-match body: trim the group-1 text, and if it is a valid
version not yet in the set, append it and mark it seen. -/
def addMatch (st : ScanState) (cap : List Nat) : ScanState :=
  let version := trimSpace cap
  if isValidVersion version && !(st.candidateSet.contains version) then
    { candidates := st.candidates ++ [version],
      candidateSet := version :: st.candidateSet }
  else st

/-- The per-line pattern loop: for each registry pattern (in declaration
order, as `GetCompiledPatterns` returns them), feed every
`FindAllStringSubmatch` group-1 text to `addMatch`.  (The source's
`len(match) > 1` guard always holds: every registry pattern has exactly
one capturing group, so each match row has two entries.) -/
def extractLine (st : ScanState) (line : List Nat) : ScanState :=
  GetCompiledPatterns.foldl
    (fun st1 re => (findAllSubmatch1 re line).foldl addMatch st1) st

/-! ## Primary scanner (`ScanBinary`) -/

def maxLines : Nat := 50000

/-- The scan loop of `ScanBinary` over the tokens produced by the split
function: runs while tokens remain and `lineCount < maxLines`; skips
lines longer than 1000 bytes, non-printable lines, and blank lines;
otherwise extracts candidates and stops once 20 have been collected. -/
def scanLinesLoop : List (List Nat) → ScanState → Nat → List (List Nat)
  | [], st, _ => st.candidates
  | line :: rest, st, lineCount =>
    if lineCount < maxLines then
      if line.length > 1000 then scanLinesLoop rest st (lineCount + 1)
      else if !isPrintable line then scanLinesLoop rest st (lineCount + 1)
      else if trimSpace line = [] then scanLinesLoop rest st (lineCount + 1)
      else
        let st1 := extractLine st line
        if 20 ≤ st1.candidates.length then st1.candidates
        else scanLinesLoop rest st1 (lineCount + 1)
    else st.candidates

def maxBufferSize : Nat := 4 * 1024 * 1024

/-- The whitespace break-point search of the buffer-pressure branch:
scan `i = 1999, 1998, …, 1000` for a space or tab at `data[i]`, else
2000. -/
def splitBreakPoint (data : List Nat) : Nat :=
  (((List.range' 1000 1000).reverse).find?
    (fun i => data.getD i 0 == 32 || data.getD i 0 == 9)).getD 2000

/-- The custom split function installed by `ScanBinary`.  `none` means
"request more data" (or, at EOF with no data, termination); `some
(advance, token)` consumes `advance` bytes and emits `token`. -/
def splitFunc (data : List Nat) (atEOF : Bool) : Option (Nat × List Nat) :=
  if atEOF ∧ data.length = 0 then none
  else
    match data.findIdx? (· == 10) with
    | some i =>
      let i1 := if i > 2000 then 2000 else i
      some (i1 + 1, data.take i1)
    | none =>
      if atEOF then
        if data.length > 2000 then some (data.length, data.take 2000)
        else some (data.length, data)
      else if data.length > maxBufferSize - 1000 then
        let breakPoint := splitBreakPoint data
        some (breakPoint, data.take breakPoint)
      else none

/-- Token sequence the scanner produces from fully-buffered data (files
within the 4MB buffer: every split call then sees all remaining bytes
with `atEOF` set).  `fuel` bounds the number of split calls;
`data.length + 1` suffices since every emitted token advances by at
least one byte. -/
def tokenize : Nat → List Nat → List (List Nat)
  | 0, _ => []
  | fuel + 1, data =>
    match splitFunc data true with
    | none => []
    | some (adv, tok) => tok :: tokenize fuel (data.drop adv)

/-- `ScanBinary` on fully-buffered file contents: split into tokens,
then run the filtering/extraction loop. -/
def ScanBinary (data : List Nat) : List (List Nat) :=
  scanLinesLoop (tokenize (data.length + 1) data) initScanState 0

/-! ## Chunked fallback scanner (`scanBinaryChunked`) -/

def chunkSize : Nat := 64 * 1024

def maxBytes : Nat := 100 * 1024 * 1024

/-- State of the chunked scanner: extraction state, the accumulating
`lineBuffer`, and `done` marking the early `return` taken once 20
candidates have been collected. -/
structure ChunkState where
  candidates : List (List Nat)
  candidateSet : List (List Nat)
  lineBuffer : List Nat
  done : Bool
deriving DecidableEq, Repr

def initChunkState : ChunkState :=
  { candidates := [], candidateSet := [], lineBuffer := [], done := false }

/-- Run the pattern loop of the chunked scanner on a flushed line. -/
def chunkExtract (st : ChunkState) (line : List Nat) : ChunkState :=
  let s := extractLine { candidates := st.candidates, candidateSet := st.candidateSet } line
  { st with candidates := s.candidates, candidateSet := s.candidateSet }

/-- The mid-stream filter of the chunked scanner: a flushed line is
scanned only if it is non-empty, at most 1000 bytes, and printable. -/
def chunkLineOk (line : List Nat) : Bool :=
  decide (0 < line.length) && decide (line.length ≤ 1000) && isPrintable line

/-- The flush step of the chunked scanner: empty the buffer, scan the
flushed line if `chunkLineOk`, and set `done` once 20 candidates exist
(the source's early `return`). -/
def flushLine (st : ChunkState) : ChunkState :=
  let line := st.lineBuffer
  let st1 := { st with lineBuffer := [] }
  let st2 := if chunkLineOk line then chunkExtract st1 line else st1
  if 20 ≤ st2.candidates.length then { st2 with done := true } else st2

/-- The byte loop body of `scanBinaryChunked`: on a newline, or when the
buffer holds more than 1000 bytes, flush; otherwise append the byte if
it is printable ASCII (32–126) and silently drop it if not. -/
def processByte (st : ChunkState) (b : Nat) : ChunkState :=
  if st.done then st
  else if b == 10 || st.lineBuffer.length > 1000 then flushLine st
  else if 32 ≤ b ∧ b ≤ 126 then { st with lineBuffer := st.lineBuffer ++ [b] }
  else st

/-- The chunk loop: read chunks while fewer than `maxBytes` bytes have
been processed, stop on a zero-length read, process the chunk byte by
byte, and stop everything once `done` is set. -/
def runChunks : List (List Nat) → Nat → ChunkState → ChunkState
  | [], _, st => st
  | chunk :: rest, processed, st =>
    if processed < maxBytes then
      if chunk.length = 0 then st
      else
        let st1 := chunk.foldl processByte st
        if st1.done then st1
        else runChunks rest (processed + chunk.length) st1
    else st

/-- `scanBinaryChunked` on the sequence of chunks `file.Read` yields:
run the chunk loop, then — unless the early return fired — flush any
remaining buffered line (the drain checks only non-emptiness and
printability). -/
def scanBinaryChunked (chunks : List (List Nat)) : List (List Nat) :=
  let st := runChunks chunks 0 initChunkState
  if st.done then st.candidates
  else if 0 < st.lineBuffer.length then
    (if isPrintable st.lineBuffer then chunkExtract st st.lineBuffer else st).candidates
  else st.candidates

/-! ## Version chooser boundary (`providers`) -/

/-- A Go `(T, error)` pair: exactly one of a value or an error message. -/
inductive GoResult (α : Type) where
  | ok : α → GoResult α
  | err : String → GoResult α
deriving DecidableEq, Repr

/-- `strings.TrimSpace` on Lean strings (ASCII whitespace). -/
def goTrimSpace (s : String) : String :=
  String.mk (((s.data.dropWhile (fun c => isSpaceByte c.toNat)).reverse.dropWhile
    (fun c => isSpaceByte c.toNat)).reverse)

/-- `buildPrompt`, shared verbatim by the OpenAI and Groq providers. -/
def buildPrompt (binaryName : String) (candidates : List String) : String :=
  "Given the following candidate strings, identify the most likely semantic version for the "
    ++ binaryName
    ++ " binary. Ignore unrelated floats or library dependencies.\n\nCandidates:\n"
    ++ ("- " ++ String.intercalate "\n- " candidates)
    ++ "\n\nPlease provide only the most likely version number in your response, nothing else."

/-- `OpenAIProvider.AnalyzeVersions`.  The remote chat-completion call is
abstracted as `createChatCompletion`, mapping the prompt to either an
error or the list of choice contents; everything before and after the
network call follows the source: the empty-candidates guard, the
error-wrapping, the empty-choices check, and the whitespace trim. -/
def OpenAIAnalyzeVersions (createChatCompletion : String → GoResult (List String))
    (binaryName : String) (candidates : List String) : GoResult String :=
  if candidates.length = 0 then .err "no version candidates provided"
  else
    match createChatCompletion (buildPrompt binaryName candidates) with
    | .err e => .err ("error calling OpenAI API: " ++ e)
    | .ok choices =>
      match choices with
      | [] => .err "no response from OpenAI API"
      | c :: _ => .ok (goTrimSpace c)

/-- `GroqProvider.AnalyzeVersions`, with the HTTP request/decode pipeline
abstracted as `doRequest` (prompt to error or choice contents). -/
def GroqAnalyzeVersions (doRequest : String → GoResult (List String))
    (binaryName : String) (candidates : List String) : GoResult String :=
  if candidates.length = 0 then .err "no version candidates provided"
  else
    match doRequest (buildPrompt binaryName candidates) with
    | .err e => .err e
    | .ok choices =>
      match choices with
      | [] => .err "no response from Groq API"
      | c :: _ => .ok (goTrimSpace c)

/-! ## Verification layer: reference descriptions of the scan

The definitions below restate, declaratively, what the scan loops
compute, so that theorems can speak about token streams, first-seen
deduplication and the line filter.  They are derived for the proofs and
are related to the source-translated functions by lemmas. -/

/-- A line survives the primary scanner's three skip checks (length cap,
printability, blank line). -/
def acceptLine (line : List Nat) : Bool :=
  !(decide (line.length > 1000)) && isPrintable line && !(decide (trimSpace line = []))

/-- All group-1 texts a line yields, over all patterns in declaration
order (the token stream `extractLine` feeds to `addMatch`). -/
def lineCaps (line : List Nat) : List (List Nat) :=
  (GetCompiledPatterns.map (fun re => findAllSubmatch1 re line)).flatten

/-- The token stream of a line list: group-1 texts of accepted lines, in
scan order. -/
def allTokens : List (List Nat) → List (List Nat)
  | [] => []
  | l :: ls => (if acceptLine l then lineCaps l else []) ++ allTokens ls

/-- First-seen deduplication of a token stream, with trimming and
validity filtering, relative to an already-seen set: the candidates the
extraction adds, in order. -/
def newTokens (seen : List (List Nat)) : List (List Nat) → List (List Nat)
  | [] => []
  | t :: ts =>
    let v := trimSpace t
    if isValidVersion v && !(seen.contains v) then v :: newTokens (v :: seen) ts
    else newTokens seen ts

/-- The full deduplicated candidate sequence of a line list, were the
scan to run without its caps. -/
def fullDedup (lines : List (List Nat)) : List (List Nat) :=
  newTokens [] (allTokens lines)

/-- Number of non-printable bytes in `l` in the sense of `isPrintable`:
outside `[32, 126]` and not tab/newline/carriage-return. -/
def nonPrintCount (l : List Nat) : Nat :=
  l.countP (fun c => !(c == 9 || c == 10 || c == 13) && (decide (c < 32) || decide (c > 126)))

/-- The stability contract claimed for the priority sort: equal-priority
patterns keep their relative declaration order in the output. -/
def StableTies (orig out : List VersionPattern) : Prop :=
  ∀ p ∈ orig, ∀ q ∈ orig, p.Priority = q.Priority →
    (orig.indexOf p < orig.indexOf q ↔ out.indexOf p < out.indexOf q)

/-- A single line carrying 22 distinct semantic versions: the accepted
lines of this input produce more than 20 distinct valid tokens. -/
def c1Line : List Nat :=
  bstr ("1.0.0 1.0.1 1.0.2 1.0.3 1.0.4 1.0.5 1.0.6 1.0.7 1.0.8 1.0.9 " ++
    "1.0.10 1.0.11 1.0.12 1.0.13 1.0.14 1.0.15 1.0.16 1.0.17 1.0.18 1.0.19 1.0.20 1.0.21")

/-- A line that textually contains the matching substring `v1.2.3` but
consists of 50% null bytes. -/
def c6NullLine : List Nat := bstr "v1.2.3" ++ List.replicate 6 0

/-- 1001 consecutive printable bytes (995 spaces then `1.2.3a`): a
counterexample stream for the chunked scanner's flush threshold. -/
def c7Part1 : List Nat := List.replicate 995 32 ++ bstr "1.2.3a"

/-- `c7Part1` followed by one more printable byte (`b`, which triggers
the over-long flush) and a newline. -/
def c7Bytes : List Nat := c7Part1 ++ [98, 10]

/-- A 2008-byte newline-terminated line (no interior newline), whose
bytes past the 2001-byte split cut still contain a version string. -/
def c10Line : List Nat := List.replicate 2001 97 ++ bstr " v7.7.7"

/-- `c10Line`, a newline, then a short second line. -/
def c10Data : List Nat := c10Line ++ 10 :: (bstr "v1.2.3" ++ [10])

/-! ## Lemmas: deduplicating extraction -/

theorem contains_eq_mem (l : List (List Nat)) (x : List Nat) :
    l.contains x = decide (x ∈ l) := by
  simp [List.contains, List.elem_eq_mem]

theorem addMatch_pos (st : ScanState) (cap : List Nat)
    (h : (isValidVersion (trimSpace cap) && !(st.candidateSet.contains (trimSpace cap))) = true) :
    addMatch st cap =
      { candidates := st.candidates ++ [trimSpace cap],
        candidateSet := trimSpace cap :: st.candidateSet } := by
  simp only [addMatch]
  rw [if_pos h]

theorem addMatch_neg (st : ScanState) (cap : List Nat)
    (h : ¬ (isValidVersion (trimSpace cap) && !(st.candidateSet.contains (trimSpace cap))) = true) :
    addMatch st cap = st := by
  simp only [addMatch]
  rw [if_neg h]

/-- Folding the per-match body over a token stream appends exactly the
first-seen new valid tokens and pushes them (reversed) onto the set. -/
theorem foldl_addMatch_eq (ts : List (List Nat)) : ∀ st : ScanState,
    ts.foldl addMatch st =
      { candidates := st.candidates ++ newTokens st.candidateSet ts,
        candidateSet := (newTokens st.candidateSet ts).reverse ++ st.candidateSet } := by
  induction ts with
  | nil => intro st; simp [newTokens]
  | cons t ts ih =>
    intro st
    simp only [List.foldl_cons, newTokens]
    by_cases h : (isValidVersion (trimSpace t) && !(st.candidateSet.contains (trimSpace t))) = true
    · rw [if_pos h, addMatch_pos st t h, ih]
      simp [List.append_assoc]
    · rw [if_neg h, addMatch_neg st t h, ih]

/-- The per-line extraction is the fold of `addMatch` over the line's
token stream. -/
theorem extractLine_eq_foldl (st : ScanState) (line : List Nat) :
    extractLine st line = (lineCaps line).foldl addMatch st := by
  simp only [extractLine, lineCaps, List.foldl_flatten, List.foldl_map]

theorem mem_newTokens_not_seen :
    ∀ (ts : List (List Nat)) (seen : List (List Nat)) (x : List Nat),
      x ∈ newTokens seen ts → x ∉ seen := by
  intro ts
  induction ts with
  | nil => intro seen x hx; simp [newTokens] at hx
  | cons t ts ih =>
    intro seen x hx
    simp only [newTokens] at hx
    by_cases h : (isValidVersion (trimSpace t) && !(seen.contains (trimSpace t))) = true
    · rw [if_pos h] at hx
      rcases List.mem_cons.mp hx with rfl | hx2
      · have h2 := (Bool.and_eq_true _ _).mp h |>.2
        rw [contains_eq_mem] at h2
        simpa using h2
      · intro hs
        exact ih (trimSpace t :: seen) x hx2 (List.mem_cons_of_mem _ hs)
    · rw [if_neg h] at hx
      exact ih seen x hx

theorem newTokens_nodup :
    ∀ (ts : List (List Nat)) (seen : List (List Nat)), (newTokens seen ts).Nodup := by
  intro ts
  induction ts with
  | nil => intro seen; simp [newTokens]
  | cons t ts ih =>
    intro seen
    simp only [newTokens]
    by_cases h : (isValidVersion (trimSpace t) && !(seen.contains (trimSpace t))) = true
    · rw [if_pos h]
      refine List.nodup_cons.mpr ⟨?_, ih _⟩
      intro hmem
      exact mem_newTokens_not_seen ts _ _ hmem (List.mem_cons_self _ _)
    · rw [if_neg h]; exact ih seen

theorem newTokens_valid :
    ∀ (ts : List (List Nat)) (seen : List (List Nat)) (x : List Nat),
      x ∈ newTokens seen ts → isValidVersion x = true := by
  intro ts
  induction ts with
  | nil => intro seen x hx; simp [newTokens] at hx
  | cons t ts ih =>
    intro seen x hx
    simp only [newTokens] at hx
    by_cases h : (isValidVersion (trimSpace t) && !(seen.contains (trimSpace t))) = true
    · rw [if_pos h] at hx
      rcases List.mem_cons.mp hx with rfl | hx2
      · exact (Bool.and_eq_true _ _).mp h |>.1
      · exact ih _ x hx2
    · rw [if_neg h] at hx
      exact ih seen x hx

theorem newTokens_append :
    ∀ (a b seen : List (List Nat)),
      newTokens seen (a ++ b) =
        newTokens seen a ++ newTokens ((newTokens seen a).reverse ++ seen) b := by
  intro a
  induction a with
  | nil => intro b seen; simp [newTokens]
  | cons t a ih =>
    intro b seen
    simp only [List.cons_append, newTokens, List.append_eq]
    by_cases h : (isValidVersion (trimSpace t) && !(seen.contains (trimSpace t))) = true
    · rw [if_pos h, if_pos h, ih]
      simp [List.append_assoc]
    · rw [if_neg h, if_neg h, ih]

theorem allTokens_append (a b : List (List Nat)) :
    allTokens (a ++ b) = allTokens a ++ allTokens b := by
  induction a with
  | nil => simp [allTokens]
  | cons l ls ih => simp [allTokens, ih]

/-- The state after extracting one accepted line, in reference terms. -/
theorem extractLine_char (st : ScanState) (h : List (List Nat)) (line : List Nat)
    (hc : st.candidates = newTokens [] h)
    (hs : st.candidateSet = (newTokens [] h).reverse) :
    (extractLine st line).candidates = newTokens [] (h ++ lineCaps line) ∧
    (extractLine st line).candidateSet = (newTokens [] (h ++ lineCaps line)).reverse := by
  rw [extractLine_eq_foldl, foldl_addMatch_eq, newTokens_append]
  constructor
  · simp [hc, hs]
  · simp [hc, hs, List.reverse_append]

/-- Master characterisation of the primary scan loop: starting from a
state that is the first-seen dedup of a token history `h` with fewer
than 20 candidates, the loop processes some prefix of the lines (`n` of
them), its result is the dedup of `h` extended by the tokens of that
prefix, every strictly shorter prefix leaves the count below 20, and an
early stop means either the candidate cap or the line cap was hit. -/
theorem scanLinesLoop_spec :
    ∀ (lines : List (List Nat)) (st : ScanState) (h : List (List Nat)) (cnt : Nat),
      st.candidates = newTokens [] h →
      st.candidateSet = (newTokens [] h).reverse →
      st.candidates.length < 20 →
      ∃ n, n ≤ lines.length ∧
        scanLinesLoop lines st cnt = newTokens [] (h ++ allTokens (lines.take n)) ∧
        (∀ m, m < n → (newTokens [] (h ++ allTokens (lines.take m))).length < 20) ∧
        (n < lines.length →
          20 ≤ (scanLinesLoop lines st cnt).length ∨ maxLines ≤ cnt + n) := by
  intro lines
  induction lines with
  | nil =>
    intro st h cnt hc hs _
    refine ⟨0, by simp, ?_, by omega, by simp⟩
    simp [scanLinesLoop, allTokens, hc]
  | cons l ls ih =>
    intro st h cnt hc hs hlt
    by_cases hcnt : cnt < maxLines
    · by_cases hlen : l.length > 1000
      · -- skipped: too long
        have hstep : scanLinesLoop (l :: ls) st cnt = scanLinesLoop ls st (cnt + 1) := by
          simp only [scanLinesLoop]
          rw [if_pos hcnt, if_pos hlen]
        have hacc : acceptLine l = false := by simp [acceptLine, hlen]
        obtain ⟨n, hn, heq, hmin, hstop⟩ := ih st h (cnt + 1) hc hs hlt
        refine ⟨n + 1, by simpa using hn, ?_, ?_, ?_⟩
        · rw [hstep, heq]; simp [List.take_succ_cons, allTokens, hacc]
        · intro m hm
          match m with
          | 0 => simpa [hc, allTokens] using hlt
          | m' + 1 =>
            have := hmin m' (by omega)
            simpa [List.take_succ_cons, allTokens, hacc] using this
        · intro hlt2
          rw [hstep]
          rcases hstop (by simpa using hlt2) with h1 | h1
          · exact Or.inl h1
          · exact Or.inr (by omega)
      · by_cases hpr : isPrintable l = true
        · by_cases hbl : trimSpace l = []
          · -- skipped: blank
            have hstep : scanLinesLoop (l :: ls) st cnt = scanLinesLoop ls st (cnt + 1) := by
              simp only [scanLinesLoop]
              rw [if_pos hcnt, if_neg hlen]
              simp [hpr, hbl]
            have hacc : acceptLine l = false := by simp [acceptLine, hbl]
            obtain ⟨n, hn, heq, hmin, hstop⟩ := ih st h (cnt + 1) hc hs hlt
            refine ⟨n + 1, by simpa using hn, ?_, ?_, ?_⟩
            · rw [hstep, heq]; simp [List.take_succ_cons, allTokens, hacc]
            · intro m hm
              match m with
              | 0 => simpa [hc, allTokens] using hlt
              | m' + 1 =>
                have := hmin m' (by omega)
                simpa [List.take_succ_cons, allTokens, hacc] using this
            · intro hlt2
              rw [hstep]
              rcases hstop (by simpa using hlt2) with h1 | h1
              · exact Or.inl h1
              · exact Or.inr (by omega)
          · -- accepted line
            have hacc : acceptLine l = true := by simp [acceptLine, hlen, hpr, hbl]
            have hch := extractLine_char st h l hc hs
            have hstep : scanLinesLoop (l :: ls) st cnt =
                (if 20 ≤ (extractLine st l).candidates.length
                 then (extractLine st l).candidates
                 else scanLinesLoop ls (extractLine st l) (cnt + 1)) := by
              simp only [scanLinesLoop]
              rw [if_pos hcnt, if_neg hlen]
              simp [hpr, hbl]
            by_cases h20 : 20 ≤ (extractLine st l).candidates.length
            · refine ⟨1, by simp, ?_, ?_, ?_⟩
              · rw [hstep, if_pos h20, hch.1]
                simp [List.take_succ_cons, allTokens, hacc]
              · intro m hm
                match m with
                | 0 => simpa [hc, allTokens] using hlt
              · intro _
                refine Or.inl ?_
                rw [hstep, if_pos h20]
                simpa [List.take_succ_cons, allTokens, hacc, ← hch.1] using h20
            · have hlt1 : (extractLine st l).candidates.length < 20 := by omega
              obtain ⟨n, hn, heq, hmin, hstop⟩ :=
                ih (extractLine st l) (h ++ lineCaps l) (cnt + 1) hch.1 hch.2 hlt1
              refine ⟨n + 1, by simpa using hn, ?_, ?_, ?_⟩
              · rw [hstep, if_neg h20, heq]
                simp [List.take_succ_cons, allTokens, hacc, List.append_assoc]
              · intro m hm
                match m with
                | 0 => simpa [hc, allTokens] using hlt
                | m' + 1 =>
                  have := hmin m' (by omega)
                  simpa [List.take_succ_cons, allTokens, hacc, List.append_assoc] using this
              · intro hlt2
                rw [hstep, if_neg h20]
                rcases hstop (by simpa using hlt2) with h1 | h1
                · exact Or.inl h1
                · exact Or.inr (by omega)
        · -- skipped: not printable
          have hstep : scanLinesLoop (l :: ls) st cnt = scanLinesLoop ls st (cnt + 1) := by
            simp only [scanLinesLoop]
            rw [if_pos hcnt, if_neg hlen]
            simp [hpr]
          have hacc : acceptLine l = false := by simp [acceptLine, hpr]
          obtain ⟨n, hn, heq, hmin, hstop⟩ := ih st h (cnt + 1) hc hs hlt
          refine ⟨n + 1, by simpa using hn, ?_, ?_, ?_⟩
          · rw [hstep, heq]; simp [List.take_succ_cons, allTokens, hacc]
          · intro m hm
            match m with
            | 0 => simpa [hc, allTokens] using hlt
            | m' + 1 =>
              have := hmin m' (by omega)
              simpa [List.take_succ_cons, allTokens, hacc] using this
          · intro hlt2
            rw [hstep]
            rcases hstop (by simpa using hlt2) with h1 | h1
            · exact Or.inl h1
            · exact Or.inr (by omega)
    · -- line cap reached
      refine ⟨0, by simp, ?_, by omega, ?_⟩
      · simp only [scanLinesLoop]
        rw [if_neg hcnt]
        simp [allTokens, hc]
      · intro _
        exact Or.inr (by omega)

/-! ## Invariants shared by both scanners -/

/-- The scan-state invariant: the membership set mirrors the candidate
list, the candidates are pairwise distinct, and all are valid. -/
def GoodScan (st : ScanState) : Prop :=
  st.candidateSet = st.candidates.reverse ∧ st.candidates.Nodup ∧
    ∀ v ∈ st.candidates, isValidVersion v = true

/-- The chunked-state invariant on its extraction fields. -/
def GoodChunk (st : ChunkState) : Prop :=
  st.candidateSet = st.candidates.reverse ∧ st.candidates.Nodup ∧
    ∀ v ∈ st.candidates, isValidVersion v = true

theorem addMatch_good (st : ScanState) (cap : List Nat) (hg : GoodScan st) :
    GoodScan (addMatch st cap) := by
  obtain ⟨hset, hnd, hval⟩ := hg
  by_cases h : (isValidVersion (trimSpace cap) && !(st.candidateSet.contains (trimSpace cap))) = true
  · rw [addMatch_pos st cap h]
    obtain ⟨hv, hns⟩ := (Bool.and_eq_true _ _).mp h
    have hnotmem : trimSpace cap ∉ st.candidates := by
      rw [hset, contains_eq_mem] at hns
      simpa using hns
    refine ⟨?_, ?_, ?_⟩
    · simp [hset, List.reverse_append]
    · rw [List.nodup_append]
      exact ⟨hnd, List.nodup_singleton _, by
        intro a ha hb
        rw [List.mem_singleton] at hb
        exact hnotmem (hb ▸ ha)⟩
    · intro v hv2
      rcases List.mem_append.mp hv2 with h1 | h1
      · exact hval v h1
      · rw [List.mem_singleton] at h1
        exact h1 ▸ hv
  · rw [addMatch_neg st cap h]
    exact ⟨hset, hnd, hval⟩

theorem foldl_addMatch_good (ts : List (List Nat)) :
    ∀ st : ScanState, GoodScan st → GoodScan (ts.foldl addMatch st) := by
  induction ts with
  | nil => intro st hg; simpa using hg
  | cons t ts ih =>
    intro st hg
    simpa using ih (addMatch st t) (addMatch_good st t hg)

theorem extractLine_good (st : ScanState) (line : List Nat) (hg : GoodScan st) :
    GoodScan (extractLine st line) := by
  rw [extractLine_eq_foldl]
  exact foldl_addMatch_good _ st hg

theorem chunkExtract_good (st : ChunkState) (line : List Nat) (hg : GoodChunk st) :
    GoodChunk (chunkExtract st line) := by
  have := extractLine_good { candidates := st.candidates, candidateSet := st.candidateSet } line hg
  exact this

theorem flushLine_good (st : ChunkState) (hg : GoodChunk st) :
    GoodChunk (flushLine st) := by
  simp only [flushLine]
  by_cases h : chunkLineOk st.lineBuffer = true
  · rw [if_pos h]
    have h1 : GoodChunk (chunkExtract { st with lineBuffer := [] } st.lineBuffer) :=
      chunkExtract_good _ _ hg
    by_cases h2 : 20 ≤ (chunkExtract { st with lineBuffer := [] } st.lineBuffer).candidates.length
    · rw [if_pos h2]; exact h1
    · rw [if_neg h2]; exact h1
  · rw [if_neg h]
    by_cases h2 : 20 ≤ st.candidates.length
    · rw [if_pos h2]; exact hg
    · rw [if_neg h2]; exact hg

theorem processByte_good (st : ChunkState) (b : Nat) (hg : GoodChunk st) :
    GoodChunk (processByte st b) := by
  simp only [processByte]
  by_cases h1 : st.done = true
  · rw [if_pos h1]; exact hg
  · rw [if_neg h1]
    by_cases h2 : (b == 10 || st.lineBuffer.length > 1000) = true
    · rw [if_pos h2]; exact flushLine_good st hg
    · rw [if_neg h2]
      by_cases h3 : 32 ≤ b ∧ b ≤ 126
      · rw [if_pos h3]; exact hg
      · rw [if_neg h3]; exact hg

theorem foldl_processByte_good (bs : List Nat) :
    ∀ st : ChunkState, GoodChunk st → GoodChunk (bs.foldl processByte st) := by
  induction bs with
  | nil => intro st hg; simpa using hg
  | cons b bs ih =>
    intro st hg
    simpa using ih (processByte st b) (processByte_good st b hg)

theorem runChunks_good (cs : List (List Nat)) :
    ∀ (p : Nat) (st : ChunkState), GoodChunk st → GoodChunk (runChunks cs p st) := by
  induction cs with
  | nil => intro p st hg; simpa [runChunks] using hg
  | cons c cs ih =>
    intro p st hg
    simp only [runChunks]
    by_cases h1 : p < maxBytes
    · rw [if_pos h1]
      by_cases h2 : c.length = 0
      · rw [if_pos h2]; exact hg
      · rw [if_neg h2]
        have hf := foldl_processByte_good c st hg
        by_cases h3 : (c.foldl processByte st).done = true
        · rw [if_pos h3]; exact hf
        · rw [if_neg h3]; exact ih _ _ hf
    · rw [if_neg h1]; exact hg

theorem scanBinaryChunked_good (chunks : List (List Nat)) :
    (scanBinaryChunked chunks).Nodup ∧
      ∀ v ∈ scanBinaryChunked chunks, isValidVersion v = true := by
  have hinit : GoodChunk initChunkState := by
    refine ⟨rfl, List.nodup_nil, ?_⟩
    intro v hv
    simp [initChunkState] at hv
  have hg := runChunks_good chunks 0 initChunkState hinit
  simp only [scanBinaryChunked]
  set st := runChunks chunks 0 initChunkState with hst
  by_cases h1 : st.done = true
  · rw [if_pos h1]; exact ⟨hg.2.1, hg.2.2⟩
  · rw [if_neg h1]
    by_cases h2 : 0 < st.lineBuffer.length
    · rw [if_pos h2]
      by_cases h3 : isPrintable st.lineBuffer = true
      · rw [if_pos h3]
        have := chunkExtract_good st st.lineBuffer hg
        exact ⟨this.2.1, this.2.2⟩
      · rw [if_neg h3]; exact ⟨hg.2.1, hg.2.2⟩
    · rw [if_neg h2]; exact ⟨hg.2.1, hg.2.2⟩

/-! ## Characterisations of the validity and printability checks -/

theorem isValidVersionLoop_iff :
    ∀ (l : List Nat) (hd hdot : Bool),
      isValidVersionLoop hd hdot l = true ↔
        ((hd = true ∨ ∃ c ∈ l, 48 ≤ c ∧ c ≤ 57) ∧ (hdot = true ∨ 46 ∈ l) ∧
          ∀ c ∈ l, (48 ≤ c ∧ c ≤ 57) ∨ c = 46 ∨ c = 45 ∨ c = 95) := by
  intro l
  induction l with
  | nil =>
    intro hd hdot
    simp [isValidVersionLoop, Bool.and_eq_true]
  | cons c rest ih =>
    intro hd hdot
    simp only [isValidVersionLoop]
    by_cases h1 : 48 ≤ c ∧ c ≤ 57
    · rw [if_pos h1, ih]
      have hc46 : c ≠ 46 := by omega
      constructor
      · rintro ⟨_, hdot2, hall⟩
        refine ⟨Or.inr ⟨c, List.mem_cons_self _ _, h1⟩, ?_, ?_⟩
        · rcases hdot2 with h | h
          · exact Or.inl h
          · exact Or.inr (List.mem_cons_of_mem _ h)
        · intro x hx
          rcases List.mem_cons.mp hx with rfl | hx2
          · exact Or.inl h1
          · exact hall x hx2
      · rintro ⟨_, hdot2, hall⟩
        refine ⟨Or.inl rfl, ?_, ?_⟩
        · rcases hdot2 with h | h
          · exact Or.inl h
          · rcases List.mem_cons.mp h with h2 | h2
            · exact absurd h2.symm hc46
            · exact Or.inr h2
        · intro x hx
          exact hall x (List.mem_cons_of_mem _ hx)
    · rw [if_neg h1]
      by_cases h2 : c = 46
      · rw [if_pos h2, ih]
        constructor
        · rintro ⟨hd2, _, hall⟩
          refine ⟨?_, Or.inr (by simp [h2]), ?_⟩
          · rcases hd2 with h | h
            · exact Or.inl h
            · obtain ⟨x, hx, hx2⟩ := h
              exact Or.inr ⟨x, List.mem_cons_of_mem _ hx, hx2⟩
          · intro x hx
            rcases List.mem_cons.mp hx with rfl | hx2
            · exact Or.inr (Or.inl h2)
            · exact hall x hx2
        · rintro ⟨hd2, _, hall⟩
          refine ⟨?_, Or.inl rfl, ?_⟩
          · rcases hd2 with h | h
            · exact Or.inl h
            · obtain ⟨x, hx, hx2⟩ := h
              rcases List.mem_cons.mp hx with rfl | hx3
              · omega
              · exact Or.inr ⟨x, hx3, hx2⟩
          · intro x hx
            exact hall x (List.mem_cons_of_mem _ hx)
      · rw [if_neg h2]
        by_cases h3 : c ≠ 45 ∧ c ≠ 95
        · rw [if_pos h3]
          constructor
          · intro h; exact absurd h (by simp)
          · rintro ⟨_, _, hall⟩
            rcases hall c (List.mem_cons_self _ _) with h | h | h | h
            · exact absurd h h1
            · exact absurd h h2
            · exact absurd h h3.1
            · exact absurd h h3.2
        · rw [if_neg h3, ih]
          have h4 : c = 45 ∨ c = 95 := by
            by_cases h5 : c = 45
            · exact Or.inl h5
            · refine Or.inr ?_
              by_contra h6
              exact h3 ⟨h5, h6⟩
          constructor
          · rintro ⟨hd2, hdot2, hall⟩
            refine ⟨?_, ?_, ?_⟩
            · rcases hd2 with h | h
              · exact Or.inl h
              · obtain ⟨x, hx, hx2⟩ := h
                exact Or.inr ⟨x, List.mem_cons_of_mem _ hx, hx2⟩
            · rcases hdot2 with h | h
              · exact Or.inl h
              · exact Or.inr (List.mem_cons_of_mem _ h)
            · intro x hx
              rcases List.mem_cons.mp hx with rfl | hx2
              · rcases h4 with h | h
                · exact Or.inr (Or.inr (Or.inl h))
                · exact Or.inr (Or.inr (Or.inr h))
              · exact hall x hx2
          · rintro ⟨hd2, hdot2, hall⟩
            refine ⟨?_, ?_, ?_⟩
            · rcases hd2 with h | h
              · exact Or.inl h
              · obtain ⟨x, hx, hx2⟩ := h
                rcases List.mem_cons.mp hx with rfl | hx3
                · omega
                · exact Or.inr ⟨x, hx3, hx2⟩
            · rcases hdot2 with h | h
              · exact Or.inl h
              · rcases List.mem_cons.mp h with h5 | h5
                · omega
                · exact Or.inr h5
            · intro x hx
              exact hall x (List.mem_cons_of_mem _ hx)

/-- `isValidVersion` decides exactly the validity contract: length 1–20,
at least one digit, at least one dot, and no byte outside
digits/`.`/`-`/`_`. -/
theorem isValidVersion_iff (v : List Nat) :
    isValidVersion v = true ↔
      (1 ≤ v.length ∧ v.length ≤ 20 ∧ (∃ c ∈ v, 48 ≤ c ∧ c ≤ 57) ∧ 46 ∈ v ∧
        ∀ c ∈ v, (48 ≤ c ∧ c ≤ 57) ∨ c = 46 ∨ c = 45 ∨ c = 95) := by
  simp only [isValidVersion]
  by_cases h : v.length = 0 ∨ v.length > 20
  · rw [if_pos h]
    constructor
    · intro h2; exact absurd h2 (by simp)
    · rintro ⟨h1, h2, _⟩; omega
  · rw [if_neg h, isValidVersionLoop_iff]
    constructor
    · rintro ⟨hd, hdot, hall⟩
      refine ⟨by omega, by omega, ?_, ?_, hall⟩
      · rcases hd with h2 | h2
        · exact absurd h2 (by simp)
        · exact h2
      · rcases hdot with h2 | h2
        · exact absurd h2 (by simp)
        · exact h2
    · rintro ⟨_, _, hd, hdot, hall⟩
      exact ⟨Or.inr hd, Or.inr hdot, hall⟩

theorem isPrintableLoop_iff :
    ∀ (l : List Nat) (chk cnt : Nat),
      isPrintableLoop chk cnt l = true ↔
        (nonPrintCount l = 0 ∨ cnt + nonPrintCount l ≤ chk / 10) := by
  intro l
  induction l with
  | nil => intro chk cnt; simp [isPrintableLoop, nonPrintCount]
  | cons c rest ih =>
    intro chk cnt
    simp only [isPrintableLoop]
    by_cases h1 : c = 9 ∨ c = 10 ∨ c = 13
    · rw [if_pos h1, ih]
      have hp : nonPrintCount (c :: rest) = nonPrintCount rest := by
        simp only [nonPrintCount, List.countP_cons]
        rcases h1 with rfl | rfl | rfl <;> simp
      rw [hp]
    · rw [if_neg h1]
      rcases not_or.mp h1 with ⟨h9, hr⟩
      rcases not_or.mp hr with ⟨h10, h13⟩
      by_cases h2 : c < 32 ∨ c > 126
      · rw [if_pos h2]
        have hp : nonPrintCount (c :: rest) = nonPrintCount rest + 1 := by
          simp only [nonPrintCount, List.countP_cons]
          rcases h2 with h2a | h2a <;> simp [h9, h10, h13, h2a]
        rw [hp]
        by_cases h3 : cnt + 1 > chk / 10
        · rw [if_pos h3]
          constructor
          · intro h; exact absurd h (by simp)
          · intro h
            rcases h with h | h <;> omega
        · rw [if_neg h3, ih]
          omega
      · rw [if_neg h2, ih]
        have hp : nonPrintCount (c :: rest) = nonPrintCount rest := by
          simp only [nonPrintCount, List.countP_cons]
          rcases not_or.mp h2 with ⟨ha, hb⟩
          simp [ha, hb]
        rw [hp]

/-- `isPrintable` decides exactly the sampled 10% rule: on a non-empty
line, the bytes outside printable ASCII (tab/newline/carriage-return not
counted) among the first `min length 200` sampled bytes are at most 10%
of the sample. -/
theorem isPrintable_iff (l : List Nat) (h : l ≠ []) :
    isPrintable l = true ↔ 10 * nonPrintCount (l.take 200) ≤ min l.length 200 := by
  have hne : ¬ l.length = 0 := by
    rw [List.length_eq_zero]; exact h
  simp only [isPrintable]
  rw [if_neg hne]
  have hdiv : ∀ a b : Nat, a ≤ b / 10 ↔ 10 * a ≤ b := by
    intro a b
    rw [Nat.le_div_iff_mul_le (by norm_num)]
    omega
  have hchk2 : (if l.length > 200 then 200 else l.length) = min l.length 200 := by
    split <;> omega
  have htake : l.take (if l.length > 200 then 200 else l.length) = l.take 200 := by
    split
    · rfl
    · rw [List.take_of_length_le (by omega), List.take_of_length_le (by omega)]
  rw [isPrintableLoop_iff, htake, hchk2]
  constructor
  · rintro (h0 | hle)
    · rw [h0]; simp
    · have := (hdiv (nonPrintCount (l.take 200)) (min l.length 200)).mp (by omega)
      exact this
  · intro h2
    refine Or.inr ?_
    have := (hdiv (nonPrintCount (l.take 200)) (min l.length 200)).mpr h2
    omega

/-! ## Consequences for `ScanBinary` -/

theorem newTokens_prefix_append (A B : List (List Nat)) :
    newTokens [] A <+: newTokens [] (A ++ B) :=
  ⟨_, (newTokens_append A B []).symm⟩

theorem take_prefix_fullDedup (lines : List (List Nat)) (n : Nat) :
    newTokens [] (allTokens (lines.take n)) <+: fullDedup lines := by
  have h : lines.take n ++ lines.drop n = lines := List.take_append_drop n lines
  rw [fullDedup]
  conv_rhs => rw [← h]
  rw [allTokens_append]
  exact newTokens_prefix_append _ _

/-- `ScanBinary` packaged through the master loop characterisation. -/
theorem ScanBinary_spec (data : List Nat) :
    ∃ n, n ≤ (tokenize (data.length + 1) data).length ∧
      ScanBinary data =
        newTokens [] (allTokens ((tokenize (data.length + 1) data).take n)) ∧
      (∀ m, m < n →
        (newTokens [] (allTokens ((tokenize (data.length + 1) data).take m))).length < 20) ∧
      (n < (tokenize (data.length + 1) data).length →
        20 ≤ (ScanBinary data).length ∨ maxLines ≤ n) := by
  obtain ⟨n, hn, heq, hmin, hstop⟩ :=
    scanLinesLoop_spec (tokenize (data.length + 1) data) initScanState [] 0 rfl rfl
      (by simp [initScanState, newTokens])
  refine ⟨n, hn, ?_, ?_, ?_⟩
  · simpa using heq
  · intro m hm
    simpa using hmin m hm
  · intro hlt
    rcases hstop hlt with h | h
    · exact Or.inl h
    · exact Or.inr (by omega)

/-! ## Claim theorems -/

set_option maxRecDepth 10000

/-- **C2, counterexample**: `GetPatternsByPriority` is not a stable sort
on the shipped registry: `GLIBC Context Version` is declared before
`Build Version` and both have priority 4, yet the output reverses them
(the nested compare-and-swap loops are an exchange sort, which does not
preserve the order of equal keys). -/
theorem getPatternsByPriority_not_stable :
    ¬ StableTies VersionPatterns GetPatternsByPriority ∧
    (VersionPatterns.map (·.Name)).indexOf "GLIBC Context Version" <
      (VersionPatterns.map (·.Name)).indexOf "Build Version" ∧
    (GetPatternsByPriority.map (·.Name)).indexOf "Build Version" <
      (GetPatternsByPriority.map (·.Name)).indexOf "GLIBC Context Version" ∧
    (VersionPatterns.filter (fun p => p.Priority == 4)).map (·.Name) =
      ["GLIBC Context Version", "Build Version", "Package Version"] ∧
    (GetPatternsByPriority.filter (fun p => p.Priority == 4)).map (·.Name) =
      ["Build Version", "GLIBC Context Version", "Package Version"] := by
  refine ⟨?_, by decide, by decide, by decide, by decide⟩
  unfold StableTies
  decide

/-- **C2, amended**: `GetPatternsByPriority` returns a permutation of the
registry sorted ascending by priority, but via an unstable exchange
sort; on the shipped registry the resulting order is as listed (note the
priority-4 group `Build Version`, `GLIBC Context Version`,
`Package Version`, which differs from declaration order). -/
theorem getPatternsByPriority_sorted_perm :
    List.Sorted (· ≤ ·) (GetPatternsByPriority.map (·.Priority)) ∧
    GetPatternsByPriority.Perm VersionPatterns ∧
    GetPatternsByPriority.map (·.Name) =
      ["Standard Version Declaration", "Stable Release Version",
       "V-Prefixed Version", "Release Keyword Version",
       "Stable Keyword Version", "Semantic Version", "GLIBC Version",
       "Library Version", "Build Version", "GLIBC Context Version",
       "Package Version", "Compiler Version", "API Version",
       "Date-based Version", "Copyright Year Version"] := by
  refine ⟨by decide, by decide, by decide⟩

/-- **C3**: for every registry pattern and every parallel
(example, expected) pair, the matcher's first capture group on the
example is exactly the expected string, and `ValidateAllPatterns`
returns `true` on the shipped registry. -/
theorem versionPatterns_self_consistent :
    (∀ p ∈ VersionPatterns, ∀ i, i < p.Examples.length →
      findStringSubmatch1 p.Pattern (bstr (p.Examples.getD i "")) =
        some (bstr (p.Expected.getD i ""))) ∧
    ValidateAllPatterns = true := by
  constructor
  · decide
  · decide

/-- Witness for the self-consistency theorem at the first pattern and
its first example (`version 1.2.3` ↦ `1.2.3`). -/
theorem versionPatterns_self_consistent_witness :
    (VersionPatterns.getD 0 dummyPattern) ∈ VersionPatterns ∧
    0 < (VersionPatterns.getD 0 dummyPattern).Examples.length ∧
    findStringSubmatch1 (VersionPatterns.getD 0 dummyPattern).Pattern
        (bstr ((VersionPatterns.getD 0 dummyPattern).Examples.getD 0 "")) =
      some (bstr ((VersionPatterns.getD 0 dummyPattern).Expected.getD 0 "")) :=
  ⟨by decide, by decide,
    versionPatterns_self_consistent.1 _ (by decide) 0 (by decide)⟩

/-- **C8**: both providers fail with the explicit
`no version candidates provided` error on an empty candidate list, for
every binary name and every behaviour of the remote call, and in
particular never return successfully. -/
theorem chooser_rejects_empty :
    ∀ (call : String → GoResult (List String)) (binaryName : String),
      OpenAIAnalyzeVersions call binaryName [] =
        GoResult.err "no version candidates provided" ∧
      GroqAnalyzeVersions call binaryName [] =
        GoResult.err "no version candidates provided" ∧
      (∀ v, OpenAIAnalyzeVersions call binaryName [] ≠ GoResult.ok v) ∧
      (∀ v, GroqAnalyzeVersions call binaryName [] ≠ GoResult.ok v) := by
  intro call binaryName
  refine ⟨rfl, rfl, ?_, ?_⟩ <;>
    · intro v h
      simp [OpenAIAnalyzeVersions, GroqAnalyzeVersions] at h

/-- **C9**: scanning the single accepted line
`glibc-2.31 and libssl-1.1.1` yields exactly `2.31` then `1.1.1`, in
order of first appearance within pattern application order (`2.31` from
the GLIBC pattern, `1.1.1` from the library pattern; later duplicate
matches of either are not re-added). -/
theorem scan_glibc_libssl_example :
    ScanBinary (bstr "glibc-2.31 and libssl-1.1.1") =
      [bstr "2.31", bstr "1.1.1"] := by
  decide

/-- **C1, counterexample**: the accepted lines of `c1Line` produce 22
(> 20) distinct valid tokens, yet the scan returns 22 candidates, not
exactly 20 — the ≥ 20 stopping condition is only checked after a whole
line, so a single token-dense line overshoots the cap. -/
theorem scanBinary_cap_not_exact :
    20 < (fullDedup (tokenize (c1Line.length + 1) c1Line)).length ∧
    (ScanBinary c1Line).length = 22 ∧ (ScanBinary c1Line).length ≠ 20 := by
  refine ⟨by decide, by decide, by decide⟩

/-- **C1, amended**: when the accepted lines produce more than 20
distinct valid tokens (and the line count is within the 50000-line cap),
scanning stops at the first line after which at least 20 unique
candidates have been collected — checked per line, after processing all
patterns against that line — and yields at least 20 candidates (exactly
20 only when the stopping line does not overshoot) in first-seen order,
i.e. a prefix of the full deduplicated token sequence. -/
theorem scanBinary_cap_at_least_20 (data : List Nat)
    (h1 : 20 < (fullDedup (tokenize (data.length + 1) data)).length)
    (h2 : (tokenize (data.length + 1) data).length ≤ maxLines) :
    20 ≤ (ScanBinary data).length ∧
    ScanBinary data <+: fullDedup (tokenize (data.length + 1) data) ∧
    ∃ n, n ≤ (tokenize (data.length + 1) data).length ∧
      ScanBinary data =
        newTokens [] (allTokens ((tokenize (data.length + 1) data).take n)) ∧
      ∀ m, m < n →
        (newTokens [] (allTokens ((tokenize (data.length + 1) data).take m))).length < 20 := by
  obtain ⟨n, hn, heq, hmin, hstop⟩ := ScanBinary_spec data
  have hpre : ScanBinary data <+: fullDedup (tokenize (data.length + 1) data) := by
    rw [heq]
    exact take_prefix_fullDedup _ n
  refine ⟨?_, hpre, n, hn, heq, hmin⟩
  by_cases hfull : n = (tokenize (data.length + 1) data).length
  · rw [heq, hfull, List.take_length]
    have hfd : fullDedup (tokenize (data.length + 1) data) =
        newTokens [] (allTokens (tokenize (data.length + 1) data)) := rfl
    rw [← hfd]
    omega
  · rcases hstop (by omega) with h | h
    · exact h
    · omega

/-- Witness for the amended cap theorem at the 22-token line. -/
theorem scanBinary_cap_at_least_20_witness :
    (20 < (fullDedup (tokenize (c1Line.length + 1) c1Line)).length ∧
      (tokenize (c1Line.length + 1) c1Line).length ≤ maxLines) ∧
    (20 ≤ (ScanBinary c1Line).length ∧
      ScanBinary c1Line <+: fullDedup (tokenize (c1Line.length + 1) c1Line) ∧
      ∃ n, n ≤ (tokenize (c1Line.length + 1) c1Line).length ∧
        ScanBinary c1Line =
          newTokens [] (allTokens ((tokenize (c1Line.length + 1) c1Line).take n)) ∧
        ∀ m, m < n →
          (newTokens [] (allTokens ((tokenize (c1Line.length + 1) c1Line).take m))).length < 20) :=
  ⟨⟨by decide, by decide⟩, scanBinary_cap_at_least_20 c1Line (by decide) (by decide)⟩

/-- **C4**: every candidate either scanner returns has length 1–20,
contains at least one digit and at least one dot, and no byte outside
digits, `.`, `-`, `_`. -/
theorem scan_candidates_valid :
    (∀ data v : List Nat, v ∈ ScanBinary data →
      1 ≤ v.length ∧ v.length ≤ 20 ∧ (∃ c ∈ v, 48 ≤ c ∧ c ≤ 57) ∧ 46 ∈ v ∧
        ∀ c ∈ v, (48 ≤ c ∧ c ≤ 57) ∨ c = 46 ∨ c = 45 ∨ c = 95) ∧
    (∀ (chunks : List (List Nat)) (v : List Nat), v ∈ scanBinaryChunked chunks →
      1 ≤ v.length ∧ v.length ≤ 20 ∧ (∃ c ∈ v, 48 ≤ c ∧ c ≤ 57) ∧ 46 ∈ v ∧
        ∀ c ∈ v, (48 ≤ c ∧ c ≤ 57) ∨ c = 46 ∨ c = 45 ∨ c = 95) := by
  constructor
  · intro data v hv
    obtain ⟨n, _, heq, _, _⟩ := ScanBinary_spec data
    rw [heq] at hv
    exact (isValidVersion_iff v).mp (newTokens_valid _ _ _ hv)
  · intro chunks v hv
    exact (isValidVersion_iff v).mp ((scanBinaryChunked_good chunks).2 v hv)

/-- Witness for candidate validity at a concrete scan. -/
theorem scan_candidates_valid_witness :
    bstr "1.2.3" ∈ ScanBinary (bstr "v1.2.3") ∧
    (1 ≤ (bstr "1.2.3").length ∧ (bstr "1.2.3").length ≤ 20 ∧
      (∃ c ∈ bstr "1.2.3", 48 ≤ c ∧ c ≤ 57) ∧ 46 ∈ bstr "1.2.3" ∧
      ∀ c ∈ bstr "1.2.3", (48 ≤ c ∧ c ≤ 57) ∨ c = 46 ∨ c = 45 ∨ c = 95) :=
  ⟨by decide, scan_candidates_valid.1 (bstr "v1.2.3") (bstr "1.2.3") (by decide)⟩

/-- **C5**: no candidate string appears twice in either scanner's
output; the primary scan's output is moreover a prefix of the full
first-seen deduplicated token sequence (each candidate sits at the
position of its first occurrence), and the per-match body never moves an
already-recorded candidate (a duplicate leaves the state unchanged; a
new valid candidate is appended at the end). -/
theorem scan_dedup_first_seen :
    (∀ data : List Nat, (ScanBinary data).Nodup ∧
      ScanBinary data <+: fullDedup (tokenize (data.length + 1) data)) ∧
    (∀ chunks : List (List Nat), (scanBinaryChunked chunks).Nodup) ∧
    (∀ (st : ScanState) (cap : List Nat),
      st.candidateSet = st.candidates.reverse →
      trimSpace cap ∈ st.candidates → addMatch st cap = st) ∧
    (∀ (st : ScanState) (cap : List Nat),
      st.candidateSet = st.candidates.reverse →
      trimSpace cap ∉ st.candidates → isValidVersion (trimSpace cap) = true →
      addMatch st cap =
        { candidates := st.candidates ++ [trimSpace cap],
          candidateSet := trimSpace cap :: st.candidateSet }) := by
  refine ⟨?_, ?_, ?_, ?_⟩
  · intro data
    obtain ⟨n, _, heq, _, _⟩ := ScanBinary_spec data
    constructor
    · rw [heq]; exact newTokens_nodup _ _
    · rw [heq]; exact take_prefix_fullDedup _ n
  · intro chunks
    exact (scanBinaryChunked_good chunks).1
  · intro st cap hset hmem
    apply addMatch_neg
    have hct : st.candidateSet.contains (trimSpace cap) = true := by
      rw [hset, contains_eq_mem]
      simpa using hmem
    simp only [hct]
    simp
  · intro st cap hset hmem hval
    apply addMatch_pos
    have hct : st.candidateSet.contains (trimSpace cap) = false := by
      rw [hset, contains_eq_mem]
      simpa using hmem
    simp [hct, hval]
    rw [hset]
    simpa using hmem

/-- Witness for the dedup theorem: a duplicate candidate leaves the
state unchanged at a concrete state. -/
theorem scan_dedup_first_seen_witness :
    (ScanState.candidateSet { candidates := [[49]], candidateSet := [[49]] } =
      (ScanState.candidates { candidates := [[49]], candidateSet := [[49]] }).reverse) ∧
    trimSpace [49] ∈ ScanState.candidates { candidates := [[49]], candidateSet := [[49]] } ∧
    addMatch { candidates := [[49]], candidateSet := [[49]] } [49] =
      { candidates := [[49]], candidateSet := [[49]] } :=
  ⟨by decide, by decide,
    scan_dedup_first_seen.2.2.1 { candidates := [[49]], candidateSet := [[49]] } [49]
      (by decide) (by decide)⟩

/-- **C6**: a line reaches pattern extraction only if it is printable in
the sampled-10% sense (and within the 1000-byte cap and not blank): the
printability predicate is exactly "at most 10% of the first
`min length 200` sampled bytes are outside printable ASCII, with
tab/newline/carriage-return not counted"; a long, non-printable or
whitespace-only line is skipped without extraction; concretely, a line
that is 50% null bytes yields no candidates even though it textually
contains the matching substring `v1.2.3`, while the null-free line does
yield `1.2.3`. -/
theorem printable_line_filter :
    (∀ l : List Nat, l ≠ [] →
      (isPrintable l = true ↔ 10 * nonPrintCount (l.take 200) ≤ min l.length 200)) ∧
    (∀ (l : List Nat) (ls : List (List Nat)) (st : ScanState) (cnt : Nat),
      cnt < maxLines →
      (l.length > 1000 ∨ isPrintable l = false ∨ trimSpace l = []) →
      scanLinesLoop (l :: ls) st cnt = scanLinesLoop ls st (cnt + 1)) ∧
    isPrintable c6NullLine = false ∧ ScanBinary c6NullLine = [] ∧
    ScanBinary (bstr "v1.2.3") = [bstr "1.2.3"] := by
  refine ⟨isPrintable_iff, ?_, by decide, by decide, by decide⟩
  intro l ls st cnt hcnt hskip
  simp only [scanLinesLoop]
  rw [if_pos hcnt]
  by_cases hlen : l.length > 1000
  · rw [if_pos hlen]
  · rw [if_neg hlen]
    by_cases hpr : isPrintable l = true
    · have htrim : trimSpace l = [] := by
        rcases hskip with h | h | h
        · exact absurd h hlen
        · rw [hpr] at h; exact absurd h (by simp)
        · exact h
      simp [hpr, htrim]
    · have hprf : isPrintable l = false := by
        cases hb : isPrintable l
        · rfl
        · exact absurd hb hpr
      simp [hprf]

/-- Witness for the printability filter at the 50%-null line. -/
theorem printable_line_filter_witness :
    c6NullLine ≠ [] ∧
    (isPrintable c6NullLine = true ↔
      10 * nonPrintCount (c6NullLine.take 200) ≤ min c6NullLine.length 200) :=
  ⟨by decide, printable_line_filter.1 c6NullLine (by decide)⟩

/-! ## C7: the chunked scanner's byte policy -/

/-- Feeding only printable non-newline bytes to the byte loop, while the
buffer stays within 1001 bytes, just appends them (no flush fires). -/
theorem foldl_processByte_printable_append :
    ∀ (bs : List Nat) (st : ChunkState), st.done = false →
      (∀ b ∈ bs, 32 ≤ b ∧ b ≤ 126) →
      st.lineBuffer.length + bs.length ≤ 1001 →
      bs.foldl processByte st = { st with lineBuffer := st.lineBuffer ++ bs } := by
  intro bs
  induction bs with
  | nil => intro st _ _ _; simp
  | cons b bs ih =>
    intro st hdone hmem hlen
    simp only [List.foldl_cons]
    have hb := hmem b (List.mem_cons_self _ _)
    have hstep : processByte st b = { st with lineBuffer := st.lineBuffer ++ [b] } := by
      simp only [processByte]
      rw [if_neg (by simp [hdone])]
      rw [if_neg ?_, if_pos ⟨hb.1, hb.2⟩]
      have hlb : st.lineBuffer.length ≤ 1000 := by
        have := List.length_cons b bs ▸ hlen
        simp at this
        omega
      simp only [Bool.or_eq_true, not_or]
      constructor
      · simp only [beq_iff_eq]
        omega
      · simp only [decide_eq_true_eq, not_lt]
        omega
    rw [hstep, ih { st with lineBuffer := st.lineBuffer ++ [b] } hdone
      (fun x hx => hmem x (List.mem_cons_of_mem _ hx))
      (by simp at hlen ⊢; omega)]
    simp

theorem flushLine_buffer (st : ChunkState) : (flushLine st).lineBuffer = [] := by
  simp only [flushLine]
  by_cases h1 : chunkLineOk st.lineBuffer = true
  · rw [if_pos h1]
    by_cases h2 : 20 ≤ (chunkExtract { st with lineBuffer := [] } st.lineBuffer).candidates.length
    · rw [if_pos h2]; rfl
    · rw [if_neg h2]; rfl
  · rw [if_neg h1]
    by_cases h2 : 20 ≤ st.candidates.length
    · rw [if_pos h2]
    · rw [if_neg h2]

theorem processByte_buffer_printable (st : ChunkState) (b : Nat)
    (h : ∀ x ∈ st.lineBuffer, 32 ≤ x ∧ x ≤ 126) :
    ∀ x ∈ (processByte st b).lineBuffer, 32 ≤ x ∧ x ≤ 126 := by
  simp only [processByte]
  by_cases h1 : st.done = true
  · rw [if_pos h1]; exact h
  · rw [if_neg h1]
    by_cases h2 : (b == 10 || st.lineBuffer.length > 1000) = true
    · rw [if_pos h2, flushLine_buffer]
      intro x hx
      simp at hx
    · rw [if_neg h2]
      by_cases h3 : 32 ≤ b ∧ b ≤ 126
      · rw [if_pos h3]
        intro x hx
        rcases List.mem_append.mp hx with hx1 | hx1
        · exact h x hx1
        · rw [List.mem_singleton] at hx1
          exact hx1 ▸ h3
      · rw [if_neg h3]; exact h

/-- **C7, amended**: the chunked fallback appends only printable ASCII
bytes (32–126) to the line buffer and silently drops every other byte
except newline; it flushes on a newline or when the accumulated line
EXCEEDS 1000 bytes (i.e. on the byte after 1001 bytes have been
buffered, not at 1000); a flushed line is scanned only if it is
non-empty, at most 1000 bytes (so an over-long flushed line is
discarded) and printable; the buffer therefore only ever holds printable
ASCII; and no further chunk is read once 100MB have been processed. -/
theorem chunked_byte_policy :
    (∀ (st : ChunkState) (b : Nat), st.done = false →
      st.lineBuffer.length ≤ 1000 → b ≠ 10 → ¬(32 ≤ b ∧ b ≤ 126) →
      processByte st b = st) ∧
    (∀ (st : ChunkState) (b : Nat), st.done = false →
      st.lineBuffer.length ≤ 1000 → b ≠ 10 → (32 ≤ b ∧ b ≤ 126) →
      processByte st b = { st with lineBuffer := st.lineBuffer ++ [b] }) ∧
    (∀ (st : ChunkState) (b : Nat), st.done = false →
      (b = 10 ∨ st.lineBuffer.length > 1000) →
      processByte st b = flushLine st) ∧
    (∀ st : ChunkState, (flushLine st).lineBuffer = [] ∧
      (chunkLineOk st.lineBuffer = false →
        (flushLine st).candidates = st.candidates) ∧
      (chunkLineOk st.lineBuffer = true →
        (flushLine st).candidates =
          (chunkExtract { st with lineBuffer := [] } st.lineBuffer).candidates)) ∧
    (∀ line : List Nat, chunkLineOk line = true ↔
      (0 < line.length ∧ line.length ≤ 1000 ∧ isPrintable line = true)) ∧
    (∀ (bs : List Nat) (st : ChunkState),
      (∀ x ∈ st.lineBuffer, 32 ≤ x ∧ x ≤ 126) →
      ∀ x ∈ (bs.foldl processByte st).lineBuffer, 32 ≤ x ∧ x ≤ 126) ∧
    (∀ (cs : List (List Nat)) (p : Nat) (st : ChunkState),
      maxBytes ≤ p → runChunks cs p st = st) := by
  refine ⟨?_, ?_, ?_, ?_, ?_, ?_, ?_⟩
  · intro st b hdone hlen hb10 hbpr
    simp only [processByte]
    rw [if_neg (by simp [hdone])]
    rw [if_neg ?_, if_neg hbpr]
    simp only [Bool.or_eq_true, not_or]
    constructor
    · simpa using hb10
    · simp only [decide_eq_true_eq, not_lt]
      omega
  · intro st b hdone hlen hb10 hbpr
    simp only [processByte]
    rw [if_neg (by simp [hdone])]
    rw [if_neg ?_, if_pos hbpr]
    simp only [Bool.or_eq_true, not_or]
    constructor
    · simpa using hb10
    · simp only [decide_eq_true_eq, not_lt]
      omega
  · intro st b hdone hflush
    have hcond : (b == 10 || decide (st.lineBuffer.length > 1000)) = true := by
      simp only [Bool.or_eq_true, beq_iff_eq, decide_eq_true_eq]
      rcases hflush with h | h
      · exact Or.inl h
      · exact Or.inr (by omega)
    simp only [processByte]
    rw [if_neg (by simp [hdone]), if_pos hcond]
  · intro st
    refine ⟨flushLine_buffer st, ?_, ?_⟩
    · intro hok
      simp only [flushLine, hok, Bool.false_eq_true, if_false]
      split <;> rfl
    · intro hok
      simp only [flushLine, hok, if_true]
      split <;> rfl
  · intro line
    simp [chunkLineOk, Bool.and_eq_true, and_assoc]
  · intro bs
    induction bs with
    | nil => intro st h; simpa using h
    | cons b bs ih =>
      intro st h
      simpa using ih (processByte st b) (processByte_buffer_printable st b h)
  · intro cs p st hp
    cases cs with
    | nil => rfl
    | cons c rest =>
      simp only [runChunks]
      rw [if_neg (by omega)]

/-- Witness for the chunked byte policy: a bell byte (7) is silently
dropped at the initial state. -/
theorem chunked_byte_policy_witness :
    initChunkState.done = false ∧ initChunkState.lineBuffer.length ≤ 1000 ∧
    (7 : Nat) ≠ 10 ∧ ¬(32 ≤ (7 : Nat) ∧ (7 : Nat) ≤ 126) ∧
    processByte initChunkState 7 = initChunkState :=
  ⟨rfl, by decide, by decide, by decide,
    chunked_byte_policy.1 initChunkState 7 rfl (by decide) (by decide) (by decide)⟩

/-- **C7, counterexample**: the chunked scanner does not flush once 1000
printable bytes have accumulated: after 1001 consecutive printable
bytes the buffer holds 1001 bytes (no flush has fired), and on
`c7Bytes` — whose first 1001 bytes end in `1.2.3` — the over-long line
is then flushed and discarded, so the scan returns no candidates; the
same version behind a newline within 1000 bytes is found. -/
theorem chunked_flush_threshold_cex :
    ((List.replicate 1001 97).foldl processByte initChunkState).lineBuffer.length = 1001 ∧
    scanBinaryChunked [c7Bytes] = [] ∧
    scanBinaryChunked [bstr "1.2.3" ++ [10]] = [bstr "1.2.3"] := by
  have h6 : (bstr "1.2.3a").length = 6 := by decide
  have hlenp : c7Part1.length = 1001 := by
    simp [c7Part1, h6]
  refine ⟨?_, ?_, by decide⟩
  · rw [foldl_processByte_printable_append _ _ rfl ?_ (by simp [initChunkState])]
    · simp [initChunkState]
    · intro b hb
      have := List.eq_of_mem_replicate hb
      omega
  · have hmem1 : ∀ b ∈ c7Part1, 32 ≤ b ∧ b ≤ 126 := by
      intro b hb
      rcases List.mem_append.mp hb with h | h
      · have := List.eq_of_mem_replicate h
        omega
      · have hsmall : ∀ x ∈ bstr "1.2.3a", 32 ≤ x ∧ x ≤ 126 := by decide
        exact hsmall b h
    have hpart : c7Part1.foldl processByte initChunkState =
        { initChunkState with lineBuffer := initChunkState.lineBuffer ++ c7Part1 } := by
      apply foldl_processByte_printable_append _ _ rfl hmem1
      simp [initChunkState, hlenp]
    have hpart2 : c7Part1.foldl processByte initChunkState =
        { candidates := [], candidateSet := [], lineBuffer := c7Part1, done := false } := by
      rw [hpart]
      simp [initChunkState]
    have hstep1 : processByte
        { candidates := [], candidateSet := [], lineBuffer := c7Part1, done := false } 98 =
        initChunkState := by
      have hcond : ((98 : Nat) == 10 || decide (c7Part1.length > 1000)) = true := by
        simp [hlenp]
      simp only [processByte]
      rw [if_neg (by simp), if_pos hcond]
      have hok : chunkLineOk c7Part1 = false := by
        simp [chunkLineOk, hlenp]
      simp only [flushLine, hok, Bool.false_eq_true, if_false]
      rw [if_neg (by simp)]
      rfl
    have hstep2 : processByte initChunkState 10 = initChunkState := by decide
    have hfold : c7Bytes.foldl processByte initChunkState = initChunkState := by
      rw [show c7Bytes = c7Part1 ++ [98, 10] from rfl, List.foldl_append, hpart2]
      simp only [List.foldl_cons, List.foldl_nil, hstep1, hstep2]
    have hclen : c7Bytes.length = 1003 := by
      simp [c7Bytes, hlenp]
    have hne : c7Bytes ≠ [] := by
      intro h
      rw [h] at hclen
      simp at hclen
    have hrun : runChunks [c7Bytes] 0 initChunkState = initChunkState := by
      simp only [runChunks, hfold]
      norm_num [maxBytes, hne, initChunkState]
    simp only [scanBinaryChunked, hrun]
    rfl

/-! ## C10: the split function on over-long lines -/

theorem findIdx?_append_no_match (l₁ l₂ : List Nat) (p : Nat → Bool)
    (h : ∀ b ∈ l₁, p b = false) :
    ∀ i, List.findIdx? p (l₁ ++ l₂) i = List.findIdx? p l₂ (i + l₁.length) := by
  induction l₁ with
  | nil => intro i; simp
  | cons a l ih =>
    intro i
    rw [List.cons_append, List.findIdx?_cons,
      if_neg (by simp [h a (List.mem_cons_self _ _)])]
    rw [ih (fun b hb => h b (List.mem_cons_of_mem _ hb)) (i + 1)]
    congr 1
    simp
    omega

theorem findIdx?_line_newline (line rest : List Nat) (hnl : ∀ b ∈ line, b ≠ 10) :
    (line ++ 10 :: rest).findIdx? (· == 10) = some line.length := by
  rw [findIdx?_append_no_match line (10 :: rest) _
    (fun b hb => by simpa using hnl b hb) 0]
  rw [List.findIdx?_cons, if_pos (by simp)]
  simp

/-- The newline branch of the split function on a newline-terminated
line longer than 2000 bytes: consume 2001 bytes, emit the first 2000. -/
theorem splitFunc_long_line (line rest : List Nat)
    (hnl : ∀ b ∈ line, b ≠ 10) (hlen : 2000 < line.length) :
    splitFunc (line ++ 10 :: rest) true = some (2001, line.take 2000) := by
  simp only [splitFunc]
  rw [if_neg (by simp), findIdx?_line_newline line rest hnl]
  simp only [if_pos hlen]
  rw [List.take_append_of_le_length (by omega)]

/-- The newline branch on a line of at most 2000 bytes: consume it whole
plus its newline. -/
theorem splitFunc_short_line (line rest : List Nat)
    (hnl : ∀ b ∈ line, b ≠ 10) (hlen : line.length ≤ 2000) :
    splitFunc (line ++ 10 :: rest) true = some (line.length + 1, line) := by
  simp only [splitFunc]
  rw [if_neg (by simp), findIdx?_line_newline line rest hnl]
  simp only [if_neg (by omega : ¬ line.length > 2000)]
  rw [List.take_left]

theorem tokenize_nil (fuel : Nat) : tokenize fuel [] = [] := by
  cases fuel with
  | zero => rfl
  | succ n =>
    simp only [tokenize, splitFunc]
    rw [if_pos (by simp)]

/-- One split step on an over-long newline-terminated line: the token is
the first 2000 bytes, and the remaining bytes of that line (after the
2001-byte advance) head the data for the next split calls. -/
theorem tokenize_long_line (line rest : List Nat) (fuel : Nat)
    (hnl : ∀ b ∈ line, b ≠ 10) (hlen : 2000 < line.length) :
    tokenize (fuel + 1) (line ++ 10 :: rest) =
      line.take 2000 :: tokenize fuel (line.drop 2001 ++ 10 :: rest) := by
  simp only [tokenize]
  rw [splitFunc_long_line line rest hnl hlen]
  simp only []
  congr 1
  rw [List.drop_append_of_le_length (by omega)]

/-- One split step on a line within the 2000-byte cap. -/
theorem tokenize_short_line (line rest : List Nat) (fuel : Nat)
    (hnl : ∀ b ∈ line, b ≠ 10) (hlen : line.length ≤ 2000) :
    tokenize (fuel + 1) (line ++ 10 :: rest) = line :: tokenize fuel rest := by
  simp only [tokenize]
  rw [splitFunc_short_line line rest hnl hlen]
  simp only []
  congr 1
  rw [List.drop_append 1]
  rfl

/-- The primary scan loop skips a line longer than 1000 bytes outright. -/
theorem scanLinesLoop_skip_long (l : List Nat) (ls : List (List Nat))
    (st : ScanState) (cnt : Nat) (hcnt : cnt < maxLines) (hlen : l.length > 1000) :
    scanLinesLoop (l :: ls) st cnt = scanLinesLoop ls st (cnt + 1) := by
  simp only [scanLinesLoop]
  rw [if_pos hcnt, if_pos hlen]

/-- **C10**: when the split function meets a newline-terminated line
longer than 2000 bytes it consumes 2001 bytes and emits the first 2000
as the token; the remaining bytes of that original line (up to its
newline) are not discarded but are returned by subsequent split calls as
additional lines; `ScanBinary` then filters and scans all those tokens
like ordinary lines — concretely, on `c10Data` the version `7.7.7`
sitting past the 2001-byte cut of a 2008-byte line is still found. -/
theorem split_long_line_tail_scanned :
    (∀ line rest : List Nat, (∀ b ∈ line, b ≠ 10) → 2000 < line.length →
      splitFunc (line ++ 10 :: rest) true = some (2001, line.take 2000) ∧
      (∀ fuel, tokenize (fuel + 1) (line ++ 10 :: rest) =
        line.take 2000 :: tokenize fuel (line.drop 2001 ++ 10 :: rest)) ∧
      ScanBinary (line ++ 10 :: rest) =
        scanLinesLoop (tokenize ((line ++ 10 :: rest).length + 1) (line ++ 10 :: rest))
          initScanState 0) ∧
    ScanBinary c10Data = [bstr "7.7.7", bstr "1.2.3"] := by
  constructor
  · intro line rest hnl hlen
    exact ⟨splitFunc_long_line line rest hnl hlen,
      fun fuel => tokenize_long_line line rest fuel hnl hlen, rfl⟩
  · have h7 : (bstr " v7.7.7").length = 7 := by decide
    have h6 : (bstr "v1.2.3").length = 6 := by decide
    have hnl10 : ∀ b ∈ c10Line, b ≠ 10 := by
      intro b hb
      rcases List.mem_append.mp hb with h | h
      · have := List.eq_of_mem_replicate h
        omega
      · have hsmall : ∀ x ∈ bstr " v7.7.7", x ≠ 10 := by decide
        exact hsmall b h
    have hlen10 : c10Line.length = 2008 := by
      rw [show c10Line = List.replicate 2001 (97 : Nat) ++ bstr " v7.7.7" from rfl,
        List.length_append, List.length_replicate, h7]
    have hgt : 2000 < c10Line.length := by omega
    have hdlen : c10Data.length = 2016 := by
      rw [show c10Data = c10Line ++ 10 :: (bstr "v1.2.3" ++ [10]) from rfl,
        List.length_append, hlen10, List.length_cons, List.length_append, h6]
      decide
    have htake : c10Line.take 2000 = List.replicate 2000 97 := by
      rw [show c10Line = List.replicate 2001 (97 : Nat) ++ bstr " v7.7.7" from rfl]
      rw [List.take_append_of_le_length (by rw [List.length_replicate]; norm_num)]
      rw [List.take_replicate]
      norm_num
    have hdrop : c10Line.drop 2001 = bstr " v7.7.7" := by
      have h1 : c10Line.drop 2001 =
          (List.replicate 2001 (97 : Nat) ++ bstr " v7.7.7").drop
            ((List.replicate 2001 (97 : Nat)).length) := by
        rw [List.length_replicate]
        rfl
      rw [h1]
      exact List.drop_left _ _
    have htok : tokenize (c10Data.length + 1) c10Data =
        [List.replicate 2000 97, bstr " v7.7.7", bstr "v1.2.3"] := by
      rw [hdlen]
      rw [show c10Data = c10Line ++ 10 :: (bstr "v1.2.3" ++ [10]) from rfl]
      rw [show (2016 : Nat) + 1 = 2016 + 1 from rfl]
      rw [tokenize_long_line _ _ _ hnl10 hgt, htake, hdrop]
      rw [show (2016 : Nat) = 2015 + 1 from rfl]
      rw [tokenize_short_line _ _ _ (by decide) (by decide)]
      rw [show (2015 : Nat) = 2014 + 1 from rfl]
      rw [tokenize_short_line _ _ _ (by decide) (by decide)]
      rw [tokenize_nil]
    have hscan : ScanBinary c10Data =
        scanLinesLoop [List.replicate 2000 97, bstr " v7.7.7", bstr "v1.2.3"]
          initScanState 0 := by
      rw [show ScanBinary c10Data =
        scanLinesLoop (tokenize (c10Data.length + 1) c10Data) initScanState 0 from rfl, htok]
    rw [hscan]
    rw [scanLinesLoop_skip_long _ _ _ _ (by norm_num [maxLines])
      (by rw [List.length_replicate]; norm_num)]
    decide

/-- Witness for the chooser guard at a concrete remote stub and binary
name. -/
theorem chooser_rejects_empty_witness :
    OpenAIAnalyzeVersions (fun _ => GoResult.ok []) "ls" [] =
      GoResult.err "no version candidates provided" ∧
    GroqAnalyzeVersions (fun _ => GoResult.ok []) "ls" [] =
      GoResult.err "no version candidates provided" :=
  ⟨(chooser_rejects_empty (fun _ => GoResult.ok []) "ls").1,
    (chooser_rejects_empty (fun _ => GoResult.ok []) "ls").2.1⟩

/-- Witness for the long-line split theorem at the 2008-byte line
`c10Line` followed by a short second line. -/
theorem split_long_line_tail_scanned_witness :
    (∀ b ∈ c10Line, b ≠ 10) ∧ 2000 < c10Line.length ∧
    (splitFunc (c10Line ++ 10 :: (bstr "v1.2.3" ++ [10])) true =
        some (2001, c10Line.take 2000) ∧
      (∀ fuel, tokenize (fuel + 1) (c10Line ++ 10 :: (bstr "v1.2.3" ++ [10])) =
        c10Line.take 2000 ::
          tokenize fuel (c10Line.drop 2001 ++ 10 :: (bstr "v1.2.3" ++ [10]))) ∧
      ScanBinary (c10Line ++ 10 :: (bstr "v1.2.3" ++ [10])) =
        scanLinesLoop
          (tokenize ((c10Line ++ 10 :: (bstr "v1.2.3" ++ [10])).length + 1)
            (c10Line ++ 10 :: (bstr "v1.2.3" ++ [10])))
          initScanState 0) := by
  have hnl : ∀ b ∈ c10Line, b ≠ 10 := by
    intro b hb
    rcases List.mem_append.mp hb with h | h
    · have := List.eq_of_mem_replicate h
      omega
    · have hsmall : ∀ x ∈ bstr " v7.7.7", x ≠ 10 := by decide
      exact hsmall b h
  have hgt : 2000 < c10Line.length := by
    rw [show c10Line = List.replicate 2001 (97 : Nat) ++ bstr " v7.7.7" from rfl,
      List.length_append, List.length_replicate]
    omega
  exact ⟨hnl, hgt,
    split_long_line_tail_scanned.1 c10Line (bstr "v1.2.3" ++ [10]) hnl hgt⟩
